import Mathlib

/-!
# Reference-counted MongoDB client pool (pkg/scalers/mongo_pool.go)

A shallow embedding of `mongoClientPool.GetClient`, `pooledMongoClient.Close`
and `mongoClientPool.releaseClient`, followed by theorems about them.

Modelling decisions.

* The MongoDB driver (`mongo.Connect`, `Client.Ping`, `Client.Disconnect`) is
  an external collaborator.  It is a parameter of every operation: a
  deterministic machine with a hidden state of an arbitrary type `σ`, so each
  theorem holds for every driver behaviour.  The `ctx` argument is only ever
  handed to the driver, so its influence is part of the driver state.
* Every call made to the driver is appended to a log (`World.calls`), which is
  how "makes no Disconnect call" and "exactly one Connect call" are stated.
* Both methods hold `cp.mu` from their first statement to their return, so
  each call is one atomic step on the state; the mutex has no other role and
  is not represented.
* `*mongo.Client` and `*mongoClientPool` are pointers; they are represented by
  their addresses, and pointer equality is equality of addresses.
* `map[string]*mongoClientEntry` is a finite partial map; it is represented by
  a function `String → Option mongoClientEntry`.  Every entry is allocated in
  `GetClient` and stored under one key only, so an update through the pointer
  `ce` is an update of the map at that key.
* `refCount` is a Go `int`, 64 bits wide on the platforms the program is built
  for, and Go's signed arithmetic wraps around.  `GetClient` and
  `releaseClient` below keep the count as an exact integer: a call changes it
  by one, so in a run that builds the count up from a new entry it cannot
  reach the edge of the range in fewer than `2^63` calls.  For a state that is
  given rather than built by a run the count can sit at the edge; there the
  operations are `GetClient64` and `releaseClient64`, which reduce the count to
  64 bits after each change.  `GetClient64_eq` and `releaseClient64_eq` show
  that the two pairs agree on every state whose count stays inside the range.
* A session (`run`) is any sequence of `GetClient`, `releaseClient` and `Close`
  calls on one pool.  A handle is a pointer in Go; a session tells handles
  apart by their number in order of issue and counts the `Close` calls made on
  each, so "closed at most once" and "closed twice" can be stated.
* `mongo.Connect` allocates a new client on every successful call.  Where a
  theorem needs this it is a hypothesis on the session: the clients returned by
  its successful Connect calls (`connected`) are pairwise distinct.
-/

namespace MongoPool

/-! ## Go values -/

/-- Go `error` values that are not nil.  `driver` is an error produced by the
MongoDB driver, identified by its message; `wrapError` is the `*fmt.wrapError`
that `fmt.Errorf` builds for a format with one `%w` verb. -/
inductive GoError where
  | driver (msg : String)
  | wrapError (msg : String) (err : GoError)
deriving DecidableEq, Repr

/-- The `Error()` method: the message of the error. -/
def GoError.Error : GoError → String
  | .driver msg => msg
  | .wrapError msg _ => msg

/-- The `Unwrap()` method as `errors.Unwrap` sees it: the wrapped error, if any. -/
def GoError.Unwrap : GoError → Option GoError
  | .driver _ => none
  | .wrapError _ err => some err

/-- Standard library `fmt.Errorf(pre + "%w", err)` for a literal `pre`: the
message is `pre` followed by `err.Error()`, and `Unwrap()` returns `err`. -/
def Errorf (pre : String) (err : GoError) : GoError :=
  .wrapError (pre ++ err.Error) err

/-- A `*mongo.Client`, identified by its address. -/
structure mongo.Client where
  addr : Nat
deriving DecidableEq, Repr

/-- Source: `type mongoClientEntry struct { client *mongo.Client; refCount int }`.
A Go `int` lies between `minInt` and `maxInt`; the field is an `Int` and the
range is a hypothesis wherever a statement depends on it. -/
structure mongoClientEntry where
  client : mongo.Client
  refCount : Int
deriving DecidableEq, Repr

/-- Source: `type mongoClientPool struct { mu sync.Mutex; clients map[string]*mongoClientEntry }`. -/
structure mongoClientPool where
  clients : String → Option mongoClientEntry

/-- Source: `type pooledMongoClient struct { *mongo.Client; pool *mongoClientPool; uri string }`.
The `pool` field is the address of the pool that issued the handle. -/
structure pooledMongoClient where
  Client : mongo.Client
  pool : Nat
  uri : String
deriving DecidableEq, Repr

/-- Go map assignment `m[k] = v`. -/
def mapAssign (m : String → Option mongoClientEntry) (k : String) (v : mongoClientEntry) :
    String → Option mongoClientEntry :=
  fun x => if x = k then some v else m x

/-- Go builtin `delete(m, k)`. -/
def mapDelete (m : String → Option mongoClientEntry) (k : String) :
    String → Option mongoClientEntry :=
  fun x => if x = k then none else m x

/-- Source: `newMongoClientPool`: a pool whose map is empty. -/
def newMongoClientPool : mongoClientPool :=
  { clients := fun _ => none }

/-! ## The driver and the world -/

/-- One call made to the MongoDB driver. -/
inductive DriverCall where
  | Connect (uri : String)
  | Ping (c : mongo.Client)
  | Disconnect (c : mongo.Client)
deriving DecidableEq, Repr

/-- The MongoDB driver: each primitive reads the driver state and returns its
result with the next driver state.  `Connect` returns a client or an error;
`Ping` and `Disconnect` return an error or nil (`none`). -/
structure Driver (σ : Type) where
  Connect : σ → String → Except GoError mongo.Client × σ
  Ping : σ → mongo.Client → Option GoError × σ
  Disconnect : σ → mongo.Client → Option GoError × σ

/-- The state the program runs in: the pool objects by address, the state of
the driver, and the log of calls made to the driver so far (oldest first). -/
structure World (σ : Type) where
  pools : Nat → mongoClientPool
  driver : σ
  calls : List DriverCall

/-- Store `f` as the `clients` map of the pool at address `cp`. -/
def setClients (pools : Nat → mongoClientPool) (cp : Nat)
    (f : String → Option mongoClientEntry) : Nat → mongoClientPool :=
  fun a => if a = cp then { clients := f } else pools a

/-! ## The operations -/

/-- Source: `func (cp *mongoClientPool) GetClient(ctx, uri) (*pooledMongoClient, error)`.
The result is `.error err` for `(nil, err)` and `.ok pc` for `(pc, nil)`. -/
def GetClient {σ : Type} (D : Driver σ) (cp : Nat) (uri : String) (w : World σ) :
    Except GoError pooledMongoClient × World σ :=
  match (w.pools cp).clients uri with
  | none =>
    match D.Connect w.driver uri with
    | (.error err, d1) =>
      (.error err, { pools := w.pools, driver := d1, calls := w.calls ++ [.Connect uri] })
    | (.ok client, d1) =>
      match D.Ping d1 client with
      | (some err, d2) =>
        (.error (Errorf "failed to ping mongodb: " err),
          { pools := w.pools, driver := d2,
            calls := w.calls ++ [.Connect uri, .Ping client] })
      | (none, d2) =>
        let ce : mongoClientEntry := { client := client, refCount := 1 }
        (.ok { Client := ce.client, pool := cp, uri := uri },
          { pools := setClients w.pools cp (mapAssign (w.pools cp).clients uri ce),
            driver := d2,
            calls := w.calls ++ [.Connect uri, .Ping client] })
  | some ce =>
    let ce1 : mongoClientEntry := { client := ce.client, refCount := ce.refCount + 1 }
    (.ok { Client := ce1.client, pool := cp, uri := uri },
      { pools := setClients w.pools cp (mapAssign (w.pools cp).clients uri ce1),
        driver := w.driver,
        calls := w.calls })

/-- Source: `func (cp *mongoClientPool) releaseClient(uri, ctx) error`.
The result is `none` for nil. -/
def releaseClient {σ : Type} (D : Driver σ) (cp : Nat) (uri : String) (w : World σ) :
    Option GoError × World σ :=
  match (w.pools cp).clients uri with
  | none => (none, w)
  | some ce =>
    let ce1 : mongoClientEntry := { client := ce.client, refCount := ce.refCount - 1 }
    if ce1.refCount = 0 then
      match D.Disconnect w.driver ce1.client with
      | (err, d1) =>
        (err, { pools := setClients w.pools cp (mapDelete (w.pools cp).clients uri),
                driver := d1,
                calls := w.calls ++ [.Disconnect ce1.client] })
    else
      (none, { pools := setClients w.pools cp (mapAssign (w.pools cp).clients uri ce1),
               driver := w.driver,
               calls := w.calls })

/-- Source: `func (pc *pooledMongoClient) Close(ctx) error`. -/
def Close {σ : Type} (D : Driver σ) (pc : pooledMongoClient) (w : World σ) :
    Option GoError × World σ :=
  releaseClient D pc.pool pc.uri w

/-! ## The count as a 64-bit `int` -/

/-- The largest Go `int` on a 64-bit platform, `2^63 - 1`. -/
def maxInt : Int := 9223372036854775807

/-- The smallest Go `int` on a 64-bit platform, `-2^63`. -/
def minInt : Int := -9223372036854775808

/-- The `int` that Go stores when the exact result of `++` or `--` is `x`:
signed integer arithmetic wraps around in two's complement, so the result is
`x` reduced modulo `2^64` into the range `minInt .. maxInt`. -/
def wrapInt (x : Int) : Int :=
  (x - minInt) % 18446744073709551616 + minInt

/-- Source: `func (cp *mongoClientPool) GetClient(ctx, uri) (*pooledMongoClient, error)`,
with `ce.refCount++` as 64-bit arithmetic.  It differs from `GetClient` in
`wrapInt` only. -/
def GetClient64 {σ : Type} (D : Driver σ) (cp : Nat) (uri : String) (w : World σ) :
    Except GoError pooledMongoClient × World σ :=
  match (w.pools cp).clients uri with
  | none =>
    match D.Connect w.driver uri with
    | (.error err, d1) =>
      (.error err, { pools := w.pools, driver := d1, calls := w.calls ++ [.Connect uri] })
    | (.ok client, d1) =>
      match D.Ping d1 client with
      | (some err, d2) =>
        (.error (Errorf "failed to ping mongodb: " err),
          { pools := w.pools, driver := d2,
            calls := w.calls ++ [.Connect uri, .Ping client] })
      | (none, d2) =>
        let ce : mongoClientEntry := { client := client, refCount := 1 }
        (.ok { Client := ce.client, pool := cp, uri := uri },
          { pools := setClients w.pools cp (mapAssign (w.pools cp).clients uri ce),
            driver := d2,
            calls := w.calls ++ [.Connect uri, .Ping client] })
  | some ce =>
    let ce1 : mongoClientEntry :=
      { client := ce.client, refCount := wrapInt (ce.refCount + 1) }
    (.ok { Client := ce1.client, pool := cp, uri := uri },
      { pools := setClients w.pools cp (mapAssign (w.pools cp).clients uri ce1),
        driver := w.driver,
        calls := w.calls })

/-- Source: `func (cp *mongoClientPool) releaseClient(uri, ctx) error`, with
`ce.refCount--` as 64-bit arithmetic.  It differs from `releaseClient` in
`wrapInt` only. -/
def releaseClient64 {σ : Type} (D : Driver σ) (cp : Nat) (uri : String) (w : World σ) :
    Option GoError × World σ :=
  match (w.pools cp).clients uri with
  | none => (none, w)
  | some ce =>
    let ce1 : mongoClientEntry :=
      { client := ce.client, refCount := wrapInt (ce.refCount - 1) }
    if ce1.refCount = 0 then
      match D.Disconnect w.driver ce1.client with
      | (err, d1) =>
        (err, { pools := setClients w.pools cp (mapDelete (w.pools cp).clients uri),
                driver := d1,
                calls := w.calls ++ [.Disconnect ce1.client] })
    else
      (none, { pools := setClients w.pools cp (mapAssign (w.pools cp).clients uri ce1),
               driver := w.driver,
               calls := w.calls })

/-! ## Scenarios: runs of calls, and what is read off their results -/

/-- The scenario "`n` calls of `GetClient` for the same key on the same pool,
one after another": the results in call order, and the final state. -/
def GetClientN {σ : Type} (D : Driver σ) (cp : Nat) (uri : String) :
    Nat → World σ → List (Except GoError pooledMongoClient) × World σ
  | 0, w => ([], w)
  | n + 1, w =>
    let r := GetClient D cp uri w
    let rest := GetClientN D cp uri n r.2
    (r.1 :: rest.1, rest.2)

/-- The scenario "`Close` on each handle of the list, in list order": the
results in call order, and the final state. -/
def CloseAll {σ : Type} (D : Driver σ) :
    List pooledMongoClient → World σ → List (Option GoError) × World σ
  | [], w => ([], w)
  | pc :: rest, w =>
    let r := Close D pc w
    let rs := CloseAll D rest r.2
    (r.1 :: rs.1, rs.2)

/-- The handles returned by the successful calls of a run, in call order. -/
def handles (rs : List (Except GoError pooledMongoClient)) : List pooledMongoClient :=
  rs.filterMap fun r =>
    match r with
    | .ok pc => some pc
    | .error _ => none

/-- Is the result that of a failed call? -/
def isFailure (r : Except GoError pooledMongoClient) : Bool :=
  match r with
  | .ok _ => false
  | .error _ => true

/-- The number of failed calls of a run. -/
def failures (rs : List (Except GoError pooledMongoClient)) : Nat :=
  rs.countP isFailure

/-- Is the driver call a `Connect`? -/
def isConnect : DriverCall → Bool
  | .Connect _ => true
  | _ => false

/-- Is the driver call a `Disconnect`? -/
def isDisconnect : DriverCall → Bool
  | .Disconnect _ => true
  | _ => false

/-- The number of `Connect` calls in a log. -/
def countConnect (cs : List DriverCall) : Nat :=
  cs.countP isConnect

/-- The number of `Disconnect` calls in a log. -/
def countDisconnect (cs : List DriverCall) : Nat :=
  cs.countP isDisconnect

/-! ## Sessions: any sequence of calls on one pool -/

/-- The clients on which the log records a Ping, oldest first.  GetClient pings
the client of every successful Connect, once, straight after the Connect, and
nothing else calls Ping; so in a log written by the pool these are the clients
returned by the successful Connect calls (`connected_GetClient` below). -/
def connected (cs : List DriverCall) : List mongo.Client :=
  cs.filterMap fun x =>
    match x with
    | .Ping c => some c
    | _ => none

/-- One call made by the code that uses the pool: `GetClient` for a key, a
direct `releaseClient` for a key, or `Close` on the handle that was issued as
number `i` (counting from 0, in order of issue). -/
inductive Op where
  | GetClient (uri : String)
  | releaseClient (uri : String)
  | Close (i : Nat)
deriving DecidableEq, Repr

/-- The state of a session: the world, and every handle issued so far, in order
of issue, each with the number of `Close` calls made on it. -/
structure Session (σ : Type) where
  world : World σ
  issued : List (pooledMongoClient × Nat)

/-- Count one more `Close` on the handle at position `i`. -/
def markClosed : List (pooledMongoClient × Nat) → Nat → List (pooledMongoClient × Nat)
  | [], _ => []
  | x :: rest, 0 => (x.1, x.2 + 1) :: rest
  | x :: rest, i + 1 => x :: markClosed rest i

/-- One call of a session on the pool at address `cp`.  A successful
`GetClient` issues its handle; `Close i` calls `Close` on handle number `i`, and
is no call at all when no such handle has been issued. -/
def step {σ : Type} (D : Driver σ) (cp : Nat) (s : Session σ) : Op → Session σ
  | .GetClient uri =>
    match GetClient D cp uri s.world with
    | (.ok pc, w) => { world := w, issued := s.issued ++ [(pc, 0)] }
    | (.error _, w) => { world := w, issued := s.issued }
  | .releaseClient uri =>
    { world := (releaseClient D cp uri s.world).2, issued := s.issued }
  | .Close i =>
    match s.issued[i]? with
    | some x => { world := (Close D x.1 s.world).2, issued := markClosed s.issued i }
    | none => s

/-- The session that makes the calls `ops` in order, from the world `w0` with
no handle issued. -/
def run {σ : Type} (D : Driver σ) (cp : Nat) (ops : List Op) (w0 : World σ) : Session σ :=
  ops.foldl (step D cp) { world := w0, issued := [] }

/-- The number of handles issued for `key`. -/
def issuedFor (key : String) (l : List (pooledMongoClient × Nat)) : Nat :=
  l.countP fun x => decide (x.1.uri = key)

/-- The number of handles issued for `key` on which `Close` has been called. -/
def closedFor (key : String) (l : List (pooledMongoClient × Nat)) : Nat :=
  l.countP fun x => decide (x.1.uri = key) && decide (1 ≤ x.2)

/-- The number of handles issued for `key` on which `Close` has not been called. -/
def openFor (key : String) (l : List (pooledMongoClient × Nat)) : Nat :=
  l.countP fun x => decide (x.1.uri = key) && decide (x.2 = 0)

/-- Is the call a direct `releaseClient`? -/
def isDirectRelease : Op → Bool
  | .releaseClient _ => true
  | _ => false

/-- The invariant of the worlds a session on pool `cp` goes through, when the
clients returned by Connect are pairwise distinct: every entry has a positive
count and a client that Connect returned and that has not been disconnected;
different keys hold different clients; only clients that Connect returned have
been disconnected, each at most once. -/
structure WorldInv {σ : Type} (cp : Nat) (w : World σ) : Prop where
  pos : ∀ uri ce, (w.pools cp).clients uri = some ce → 1 ≤ ce.refCount
  conn : ∀ uri ce, (w.pools cp).clients uri = some ce → ce.client ∈ connected w.calls
  live : ∀ uri ce, (w.pools cp).clients uri = some ce →
    DriverCall.Disconnect ce.client ∉ w.calls
  inj : ∀ u1 u2 ce1 ce2, (w.pools cp).clients u1 = some ce1 →
    (w.pools cp).clients u2 = some ce2 → ce1.client = ce2.client → u1 = u2
  disc : ∀ c, DriverCall.Disconnect c ∈ w.calls → c ∈ connected w.calls
  once : ∀ c, w.calls.count (DriverCall.Disconnect c) ≤ 1

/-- The invariant of the handles of a session on pool `cp`, when the clients
returned by Connect are pairwise distinct: every handle was issued by this pool
and holds a client that Connect returned; handles on the same client are for
the same key, which is also the key of any entry holding that client. -/
structure HandleInv {σ : Type} (cp : Nat) (s : Session σ) : Prop where
  pool : ∀ x ∈ s.issued, x.1.pool = cp
  conn : ∀ x ∈ s.issued, x.1.Client ∈ connected s.world.calls
  same : ∀ x ∈ s.issued, ∀ y ∈ s.issued, x.1.Client = y.1.Client → x.1.uri = y.1.uri
  reg : ∀ x ∈ s.issued, ∀ uri ce, (s.world.pools cp).clients uri = some ce →
    ce.client = x.1.Client → x.1.uri = uri

/-! ## Concrete drivers and states for the examples -/

/-- A driver whose outcomes are fixed in advance: `Connect` fails with
`connectErr` if there is one and otherwise returns a client at the next unused
address (the driver state counts the clients handed out); `Ping` and
`Disconnect` return `pingErr` and `disconnectErr`. -/
def scriptedDriver (connectErr pingErr disconnectErr : Option GoError) : Driver Nat :=
  { Connect := fun n _ =>
      match connectErr with
      | some e => (.error e, n)
      | none => (.ok { addr := n }, n + 1)
    Ping := fun n _ => (pingErr, n)
    Disconnect := fun n _ => (disconnectErr, n) }

/-- A driver on which every call succeeds. -/
def healthyDriver : Driver Nat :=
  scriptedDriver none none none

/-- The state at program start: every pool is as `newMongoClientPool` made it,
no client has been handed out, no driver call has been made. -/
def startWorld : World Nat :=
  { pools := fun _ => newMongoClientPool, driver := 0, calls := [] }

/-- A state in which pool 0 holds one entry, for "db1", with the given count. -/
def sharedWorld (rc : Int) : World Nat :=
  { pools := setClients startWorld.pools 0
      (mapAssign newMongoClientPool.clients "db1" { client := { addr := 0 }, refCount := rc })
    driver := 1
    calls := [.Connect "db1", .Ping { addr := 0 }] }

/-! ## Single calls -/

theorem setClients_self (pools : Nat → mongoClientPool) (cp : Nat)
    (f : String → Option mongoClientEntry) : (setClients pools cp f cp).clients = f := by
  simp [setClients]

theorem mapAssign_self (m : String → Option mongoClientEntry) (k : String)
    (v : mongoClientEntry) : mapAssign m k v k = some v := by
  simp [mapAssign]

theorem mapDelete_self (m : String → Option mongoClientEntry) (k : String) :
    mapDelete m k k = none := by
  simp [mapDelete]

/-- C4: when the key has no entry and Connect fails with `e`, GetClient returns
no handle and the error `e` itself, its only driver call is that Connect (no
Ping, no Disconnect), and the pools are exactly as before the call. -/
theorem GetClient_connect_failure {σ : Type} (D : Driver σ) (cp : Nat) (uri : String)
    (w : World σ) (e : GoError) (d1 : σ)
    (hno : (w.pools cp).clients uri = none)
    (hc : D.Connect w.driver uri = (.error e, d1)) :
    (GetClient D cp uri w).1 = .error e ∧
    (GetClient D cp uri w).2.calls = w.calls ++ [.Connect uri] ∧
    (GetClient D cp uri w).2.pools = w.pools := by
  simp [GetClient, hno, hc]

/-- Witness of C4: on the start state, with a driver whose Connect fails with
"no reachable servers", GetClient for "db1" returns that error, calls Connect
once and nothing else, and leaves the pools untouched. -/
theorem GetClient_connect_failure_witness :
    (GetClient (scriptedDriver (some (.driver "no reachable servers")) none none) 0 "db1"
        startWorld).1 = .error (.driver "no reachable servers") ∧
    (GetClient (scriptedDriver (some (.driver "no reachable servers")) none none) 0 "db1"
        startWorld).2.calls = startWorld.calls ++ [.Connect "db1"] ∧
    (GetClient (scriptedDriver (some (.driver "no reachable servers")) none none) 0 "db1"
        startWorld).2.pools = startWorld.pools :=
  GetClient_connect_failure (scriptedDriver (some (.driver "no reachable servers")) none none)
    0 "db1" startWorld (.driver "no reachable servers") 0 rfl rfl

theorem wrapError_ne_self (msg : String) (e : GoError) : GoError.wrapError msg e ≠ e := by
  intro h
  have hs := congrArg sizeOf h
  simp at hs

theorem append_ne_right (pre s : String) (hpre : 0 < pre.length) : pre ++ s ≠ s := by
  intro h
  have hl := congrArg String.length h
  rw [String.length_append] at hl
  omega

/-- C5: when the key has no entry, Connect succeeds and Ping fails with `e`,
GetClient returns no handle and the error built by
`fmt.Errorf("failed to ping mongodb: %w", e)`: unwrapping it gives `e`, its
message is "failed to ping mongodb: " followed by the message of `e`, it is a
different error value from `e` with a different message, and the pools are
exactly as before the call. -/
theorem GetClient_ping_failure {σ : Type} (D : Driver σ) (cp : Nat) (uri : String)
    (w : World σ) (c : mongo.Client) (e : GoError) (d1 d2 : σ)
    (hno : (w.pools cp).clients uri = none)
    (hc : D.Connect w.driver uri = (.ok c, d1))
    (hp : D.Ping d1 c = (some e, d2)) :
    (GetClient D cp uri w).1 = .error (Errorf "failed to ping mongodb: " e) ∧
    (Errorf "failed to ping mongodb: " e).Unwrap = some e ∧
    (Errorf "failed to ping mongodb: " e).Error = "failed to ping mongodb: " ++ e.Error ∧
    Errorf "failed to ping mongodb: " e ≠ e ∧
    (Errorf "failed to ping mongodb: " e).Error ≠ e.Error ∧
    (GetClient D cp uri w).2.pools = w.pools := by
  refine ⟨?_, rfl, rfl, wrapError_ne_self _ e, ?_, ?_⟩
  · simp [GetClient, hno, hc, hp]
  · exact append_ne_right _ _ (by decide)
  · simp [GetClient, hno, hc, hp]

/-- Witness of C5: on the start state, with a driver whose Ping fails with
"server selection timeout", GetClient for "db1" returns the wrapping error and
leaves the pools untouched. -/
theorem GetClient_ping_failure_witness :
    (GetClient (scriptedDriver none (some (.driver "server selection timeout")) none) 0 "db1"
        startWorld).1
      = .error (Errorf "failed to ping mongodb: " (.driver "server selection timeout")) ∧
    (Errorf "failed to ping mongodb: " (.driver "server selection timeout")).Unwrap
      = some (.driver "server selection timeout") ∧
    (Errorf "failed to ping mongodb: " (.driver "server selection timeout")).Error
      = "failed to ping mongodb: " ++ (GoError.driver "server selection timeout").Error ∧
    Errorf "failed to ping mongodb: " (.driver "server selection timeout")
      ≠ .driver "server selection timeout" ∧
    (Errorf "failed to ping mongodb: " (.driver "server selection timeout")).Error
      ≠ (GoError.driver "server selection timeout").Error ∧
    (GetClient (scriptedDriver none (some (.driver "server selection timeout")) none) 0 "db1"
        startWorld).2.pools = startWorld.pools :=
  GetClient_ping_failure (scriptedDriver none (some (.driver "server selection timeout")) none)
    0 "db1" startWorld { addr := 0 } (.driver "server selection timeout") 1 1 rfl rfl rfl

/-- C3, evaluated on the code: on the start state, with a driver whose Connect
succeeds and whose Ping fails, GetClient for "db1" returns the probe-failure
error and leaves no entry for "db1", but its driver calls are Connect and Ping
only: Disconnect is not called on the client it has just opened. -/
theorem GetClient_ping_failure_no_disconnect :
    (GetClient (scriptedDriver none (some (.driver "server selection timeout")) none) 0 "db1"
        startWorld).1
      = .error (Errorf "failed to ping mongodb: " (.driver "server selection timeout")) ∧
    (GetClient (scriptedDriver none (some (.driver "server selection timeout")) none) 0 "db1"
        startWorld).2.calls = [.Connect "db1", .Ping { addr := 0 }] ∧
    countDisconnect (GetClient (scriptedDriver none (some (.driver "server selection timeout"))
        none) 0 "db1" startWorld).2.calls = 0 ∧
    ((GetClient (scriptedDriver none (some (.driver "server selection timeout")) none) 0 "db1"
        startWorld).2.pools 0).clients "db1" = none := by
  refine ⟨rfl, rfl, rfl, rfl⟩

/-- C6: when the key has an entry with refCount 1, releaseClient calls
Disconnect once, on the client of that entry, and makes no other driver call;
afterwards the key has no entry, and the value returned is the value Disconnect
returned, whether nil or an error. -/
theorem releaseClient_last {σ : Type} (D : Driver σ) (cp : Nat) (uri : String)
    (w : World σ) (ce : mongoClientEntry) (r : Option GoError) (d1 : σ)
    (hce : (w.pools cp).clients uri = some ce)
    (hrc : ce.refCount = 1)
    (hd : D.Disconnect w.driver ce.client = (r, d1)) :
    (releaseClient D cp uri w).1 = r ∧
    (releaseClient D cp uri w).2.calls = w.calls ++ [.Disconnect ce.client] ∧
    ((releaseClient D cp uri w).2.pools cp).clients uri = none := by
  simp [releaseClient, hce, hrc, hd, setClients, mapDelete]

/-- Witness of C6: with one reference left on "db1" and a driver whose
Disconnect fails with "connection reset", releaseClient returns that error,
calls Disconnect once on the client of the entry, and removes the entry. -/
theorem releaseClient_last_witness :
    (releaseClient (scriptedDriver none none (some (.driver "connection reset"))) 0 "db1"
        (sharedWorld 1)).1 = some (.driver "connection reset") ∧
    (releaseClient (scriptedDriver none none (some (.driver "connection reset"))) 0 "db1"
        (sharedWorld 1)).2.calls
      = (sharedWorld 1).calls ++ [.Disconnect { addr := 0 }] ∧
    ((releaseClient (scriptedDriver none none (some (.driver "connection reset"))) 0 "db1"
        (sharedWorld 1)).2.pools 0).clients "db1" = none :=
  releaseClient_last (scriptedDriver none none (some (.driver "connection reset"))) 0 "db1"
    (sharedWorld 1) { client := { addr := 0 }, refCount := 1 }
    (some (.driver "connection reset")) 1 rfl rfl rfl

/-- C7: when the key has an entry with refCount greater than 1, releaseClient
returns nil, makes no driver call (so no Disconnect), and afterwards the key
has an entry with the same client and the refCount reduced by one. -/
theorem releaseClient_shared {σ : Type} (D : Driver σ) (cp : Nat) (uri : String)
    (w : World σ) (ce : mongoClientEntry)
    (hce : (w.pools cp).clients uri = some ce)
    (hrc : 1 < ce.refCount) :
    (releaseClient D cp uri w).1 = none ∧
    (releaseClient D cp uri w).2.calls = w.calls ∧
    (releaseClient D cp uri w).2.driver = w.driver ∧
    ((releaseClient D cp uri w).2.pools cp).clients uri
      = some { client := ce.client, refCount := ce.refCount - 1 } := by
  have hne : ¬ (ce.refCount - 1 = 0) := by omega
  simp [releaseClient, hce, hne, setClients, mapAssign]

/-- Witness of C7: with two references on "db1", releaseClient returns nil,
makes no driver call and leaves the entry with the same client and count 1. -/
theorem releaseClient_shared_witness :
    (releaseClient healthyDriver 0 "db1" (sharedWorld 2)).1 = none ∧
    (releaseClient healthyDriver 0 "db1" (sharedWorld 2)).2.calls = (sharedWorld 2).calls ∧
    (releaseClient healthyDriver 0 "db1" (sharedWorld 2)).2.driver = (sharedWorld 2).driver ∧
    ((releaseClient healthyDriver 0 "db1" (sharedWorld 2)).2.pools 0).clients "db1"
      = some { client := { addr := 0 }, refCount := 2 - 1 } :=
  releaseClient_shared healthyDriver 0 "db1" (sharedWorld 2)
    { client := { addr := 0 }, refCount := 2 } rfl (by decide)

/-- C8: when the key has no entry, releaseClient returns nil and the state
after the call is the state before it: no driver call, pools unchanged. -/
theorem releaseClient_absent {σ : Type} (D : Driver σ) (cp : Nat) (uri : String)
    (w : World σ) (hno : (w.pools cp).clients uri = none) :
    (releaseClient D cp uri w).1 = none ∧
    (releaseClient D cp uri w).2.calls = w.calls ∧
    (releaseClient D cp uri w).2.pools = w.pools ∧
    (releaseClient D cp uri w).2 = w := by
  simp [releaseClient, hno]

/-- Witness of C8: releasing "db2", which has no entry, in a state that holds
an entry for "db1" returns nil and changes nothing. -/
theorem releaseClient_absent_witness :
    (releaseClient healthyDriver 0 "db2" (sharedWorld 1)).1 = none ∧
    (releaseClient healthyDriver 0 "db2" (sharedWorld 1)).2.calls = (sharedWorld 1).calls ∧
    (releaseClient healthyDriver 0 "db2" (sharedWorld 1)).2.pools = (sharedWorld 1).pools ∧
    (releaseClient healthyDriver 0 "db2" (sharedWorld 1)).2 = sharedWorld 1 :=
  releaseClient_absent healthyDriver 0 "db2" (sharedWorld 1) (by decide)

/-- Inside the range of `int` nothing wraps. -/
theorem wrapInt_of_range (x : Int) (hlo : minInt ≤ x) (hhi : x ≤ maxInt) : wrapInt x = x := by
  simp only [wrapInt, minInt, maxInt] at *
  omega

/-- One past the largest `int` is the smallest `int`. -/
theorem wrapInt_maxInt_succ : wrapInt (maxInt + 1) = minInt := by
  decide

/-- The exact and the 64-bit GetClient agree on every state in which the count
of the key, if the key has an entry, is an `int` below the largest. -/
theorem GetClient64_eq {σ : Type} (D : Driver σ) (cp : Nat) (uri : String) (w : World σ)
    (h : ∀ ce, (w.pools cp).clients uri = some ce →
      minInt ≤ ce.refCount ∧ ce.refCount < maxInt) :
    GetClient64 D cp uri w = GetClient D cp uri w := by
  cases hce : (w.pools cp).clients uri with
  | none => simp [GetClient64, GetClient, hce]
  | some ce =>
    obtain ⟨hlo, hhi⟩ := h ce hce
    have hw : wrapInt (ce.refCount + 1) = ce.refCount + 1 :=
      wrapInt_of_range _ (by omega) (by omega)
    simp [GetClient64, GetClient, hce, hw]

/-- The exact and the 64-bit releaseClient agree on every state in which the
count of the key, if the key has an entry, is an `int` above the smallest. -/
theorem releaseClient64_eq {σ : Type} (D : Driver σ) (cp : Nat) (uri : String)
    (w : World σ)
    (h : ∀ ce, (w.pools cp).clients uri = some ce →
      minInt < ce.refCount ∧ ce.refCount ≤ maxInt) :
    releaseClient64 D cp uri w = releaseClient D cp uri w := by
  cases hce : (w.pools cp).clients uri with
  | none => simp [releaseClient64, releaseClient, hce]
  | some ce =>
    obtain ⟨hlo, hhi⟩ := h ce hce
    have hw : wrapInt (ce.refCount - 1) = ce.refCount - 1 :=
      wrapInt_of_range _ (by omega) (by omega)
    simp [releaseClient64, releaseClient, hce, hw]

/-- C9 as stated fails: in the state where "db1" has an entry whose refCount is
the largest `int`, GetClient for "db1" succeeds but `ce.refCount++` wraps: the
refCount after the call is the smallest `int`, not the old refCount plus one,
and it is less than before. -/
theorem GetClient_existing_wraps :
    ((sharedWorld maxInt).pools 0).clients "db1"
      = some { client := { addr := 0 }, refCount := 9223372036854775807 } ∧
    (GetClient64 healthyDriver 0 "db1" (sharedWorld maxInt)).1
      = .ok { Client := { addr := 0 }, pool := 0, uri := "db1" } ∧
    ((GetClient64 healthyDriver 0 "db1" (sharedWorld maxInt)).2.pools 0).clients "db1"
      = some { client := { addr := 0 }, refCount := -9223372036854775808 } ∧
    ((GetClient64 healthyDriver 0 "db1" (sharedWorld maxInt)).2.pools 0).clients "db1"
      ≠ some { client := { addr := 0 }, refCount := 9223372036854775807 + 1 } := by
  have h : ((GetClient64 healthyDriver 0 "db1" (sharedWorld maxInt)).2.pools 0).clients "db1"
      = some { client := { addr := 0 }, refCount := -9223372036854775808 } := by
    simp [GetClient64, sharedWorld, setClients, mapAssign, wrapInt_maxInt_succ, minInt]
  refine ⟨rfl, ?_, h, ?_⟩
  · simp [GetClient64, sharedWorld, setClients, mapAssign]
  · rw [h]
    decide

/-- C9, amended: when the key already has an entry whose refCount is an `int`
below the largest (`maxInt`), GetClient succeeds, makes no driver call (no
Connect, Ping or Disconnect), leaves the entry with the same client and the
refCount increased by one, and returns a handle whose client is the client of
the entry, whose uri is the requested key and whose pool is the pool the call
was made on.  On such a state the 64-bit and the exact GetClient are the same. -/
theorem GetClient_existing {σ : Type} (D : Driver σ) (cp : Nat) (uri : String)
    (w : World σ) (ce : mongoClientEntry)
    (hce : (w.pools cp).clients uri = some ce)
    (hlo : minInt ≤ ce.refCount) (hhi : ce.refCount < maxInt) :
    (GetClient64 D cp uri w).1 = .ok { Client := ce.client, pool := cp, uri := uri } ∧
    (GetClient64 D cp uri w).2.calls = w.calls ∧
    (GetClient64 D cp uri w).2.driver = w.driver ∧
    ((GetClient64 D cp uri w).2.pools cp).clients uri
      = some { client := ce.client, refCount := ce.refCount + 1 } ∧
    GetClient64 D cp uri w = GetClient D cp uri w := by
  have hw : wrapInt (ce.refCount + 1) = ce.refCount + 1 :=
    wrapInt_of_range _ (by omega) (by omega)
  refine ⟨?_, ?_, ?_, ?_, ?_⟩
  · simp [GetClient64, hce]
  · simp [GetClient64, hce]
  · simp [GetClient64, hce]
  · simp [GetClient64, hce, hw, setClients, mapAssign]
  · apply GetClient64_eq
    intro ce2 h2
    rw [hce] at h2
    cases h2
    exact ⟨hlo, hhi⟩

/-- Witness of C9, amended: with one reference on "db1", GetClient for "db1"
returns a handle on the client of the entry, makes no driver call and sets the
count to 2. -/
theorem GetClient_existing_witness :
    (GetClient64 healthyDriver 0 "db1" (sharedWorld 1)).1
      = .ok { Client := { addr := 0 }, pool := 0, uri := "db1" } ∧
    (GetClient64 healthyDriver 0 "db1" (sharedWorld 1)).2.calls = (sharedWorld 1).calls ∧
    (GetClient64 healthyDriver 0 "db1" (sharedWorld 1)).2.driver = (sharedWorld 1).driver ∧
    ((GetClient64 healthyDriver 0 "db1" (sharedWorld 1)).2.pools 0).clients "db1"
      = some { client := { addr := 0 }, refCount := 1 + 1 } ∧
    GetClient64 healthyDriver 0 "db1" (sharedWorld 1)
      = GetClient healthyDriver 0 "db1" (sharedWorld 1) :=
  GetClient_existing healthyDriver 0 "db1" (sharedWorld 1)
    { client := { addr := 0 }, refCount := 1 } rfl (by decide) (by decide)

/-- C10: when the key has no entry and Connect and then Ping succeed, the
driver calls of GetClient are one Connect for the key followed by one Ping on
the client Connect returned, the key gets an entry holding that client with
refCount 1, and the handle returned holds that client, the key and the pool. -/
theorem GetClient_fresh {σ : Type} (D : Driver σ) (cp : Nat) (uri : String)
    (w : World σ) (c : mongo.Client) (d1 d2 : σ)
    (hno : (w.pools cp).clients uri = none)
    (hc : D.Connect w.driver uri = (.ok c, d1))
    (hp : D.Ping d1 c = (none, d2)) :
    (GetClient D cp uri w).1 = .ok { Client := c, pool := cp, uri := uri } ∧
    (GetClient D cp uri w).2.calls = w.calls ++ [.Connect uri, .Ping c] ∧
    (GetClient D cp uri w).2.driver = d2 ∧
    ((GetClient D cp uri w).2.pools cp).clients uri = some { client := c, refCount := 1 } := by
  simp [GetClient, hno, hc, hp, setClients, mapAssign]

/-- Witness of C10: on the start state with a healthy driver, GetClient for
"db1" calls Connect then Ping, registers the new client with count 1 and
returns a handle on it. -/
theorem GetClient_fresh_witness :
    (GetClient healthyDriver 0 "db1" startWorld).1
      = .ok { Client := { addr := 0 }, pool := 0, uri := "db1" } ∧
    (GetClient healthyDriver 0 "db1" startWorld).2.calls
      = startWorld.calls ++ [.Connect "db1", .Ping { addr := 0 }] ∧
    (GetClient healthyDriver 0 "db1" startWorld).2.driver = 1 ∧
    ((GetClient healthyDriver 0 "db1" startWorld).2.pools 0).clients "db1"
      = some { client := { addr := 0 }, refCount := 1 } :=
  GetClient_fresh healthyDriver 0 "db1" startWorld { addr := 0 } 1 1 rfl rfl rfl

/-! ## Runs of calls -/

theorem GetClientN_succ {σ : Type} (D : Driver σ) (cp : Nat) (uri : String) (n : Nat)
    (w : World σ) :
    GetClientN D cp uri (n + 1) w
      = ((GetClient D cp uri w).1 :: (GetClientN D cp uri n (GetClient D cp uri w).2).1,
          (GetClientN D cp uri n (GetClient D cp uri w).2).2) :=
  rfl

theorem CloseAll_cons {σ : Type} (D : Driver σ) (pc : pooledMongoClient)
    (rest : List pooledMongoClient) (w : World σ) :
    CloseAll D (pc :: rest) w
      = ((Close D pc w).1 :: (CloseAll D rest (Close D pc w).2).1,
          (CloseAll D rest (Close D pc w).2).2) :=
  rfl

theorem handles_replicate_ok (n : Nat) (pc : pooledMongoClient) :
    handles (List.replicate n (.ok pc)) = List.replicate n pc := by
  induction n with
  | zero => rfl
  | succ n _ => simp [List.replicate_succ, handles]

theorem failures_replicate_ok (n : Nat) (pc : pooledMongoClient) :
    failures (List.replicate n (.ok pc)) = 0 := by
  simp [failures, List.countP_replicate, isFailure]

/-- While the key has an entry, every further GetClient succeeds on the client
of that entry without calling the driver, and the count grows by one a call. -/
theorem GetClientN_of_entry {σ : Type} (D : Driver σ) (cp : Nat) (uri : String) (n : Nat) :
    ∀ (w : World σ) (ce : mongoClientEntry), (w.pools cp).clients uri = some ce →
      (GetClientN D cp uri n w).1
          = List.replicate n (.ok { Client := ce.client, pool := cp, uri := uri }) ∧
        (GetClientN D cp uri n w).2.calls = w.calls ∧
        (GetClientN D cp uri n w).2.driver = w.driver ∧
        ((GetClientN D cp uri n w).2.pools cp).clients uri
          = some { client := ce.client, refCount := ce.refCount + n } := by
  induction n with
  | zero =>
    intro w ce hce
    simp [GetClientN, hce]
  | succ n ih =>
    intro w ce hce
    have h1 : (GetClient D cp uri w).1 = .ok { Client := ce.client, pool := cp, uri := uri } := by
      simp [GetClient, hce]
    have h2 : (GetClient D cp uri w).2.calls = w.calls := by simp [GetClient, hce]
    have h3 : (GetClient D cp uri w).2.driver = w.driver := by simp [GetClient, hce]
    have h4 : ((GetClient D cp uri w).2.pools cp).clients uri
        = some { client := ce.client, refCount := ce.refCount + 1 } := by
      simp [GetClient, hce, setClients, mapAssign]
    obtain ⟨i1, i2, i3, i4⟩ := ih (GetClient D cp uri w).2 _ h4
    rw [GetClientN_succ]
    refine ⟨?_, ?_, ?_, ?_⟩
    · simp [h1, i1, List.replicate_succ]
    · simp [i2, h2]
    · simp [i3, h3]
    · simp only [i4]
      simp
      omega

/-- Closing fewer handles of a key than its entry counts makes no driver call
and lowers the count by the number of handles closed. -/
theorem CloseAll_of_shared {σ : Type} (D : Driver σ) (cp : Nat) (uri : String)
    (c0 : mongo.Client) (k : Nat) :
    ∀ (w : World σ) (ce : mongoClientEntry), (w.pools cp).clients uri = some ce →
      (k : Int) < ce.refCount →
      (CloseAll D (List.replicate k { Client := c0, pool := cp, uri := uri }) w).2.calls
          = w.calls ∧
        ((CloseAll D (List.replicate k { Client := c0, pool := cp, uri := uri }) w).2.pools
            cp).clients uri
          = some { client := ce.client, refCount := ce.refCount - k } := by
  induction k with
  | zero =>
    intro w ce hce _
    simp [CloseAll, hce]
  | succ k ih =>
    intro w ce hce hlt
    have hne : ¬ (ce.refCount - 1 = 0) := by omega
    have h2 : (Close D { Client := c0, pool := cp, uri := uri } w).2.calls = w.calls := by
      simp [Close, releaseClient, hce, hne]
    have h4 : ((Close D { Client := c0, pool := cp, uri := uri } w).2.pools cp).clients uri
        = some { client := ce.client, refCount := ce.refCount - 1 } := by
      simp [Close, releaseClient, hce, hne, setClients, mapAssign]
    obtain ⟨i2, i4⟩ := ih (Close D { Client := c0, pool := cp, uri := uri } w).2 _ h4
      (by simp; omega)
    rw [List.replicate_succ, CloseAll_cons]
    refine ⟨?_, ?_⟩
    · simp [i2, h2]
    · simp only [i4]
      simp
      omega

/-- Closing exactly as many handles of a key as its entry counts calls
Disconnect once, on the client of the entry, and removes the entry. -/
theorem CloseAll_of_last {σ : Type} (D : Driver σ) (cp : Nat) (uri : String)
    (c0 : mongo.Client) (k : Nat) :
    ∀ (w : World σ) (ce : mongoClientEntry), (w.pools cp).clients uri = some ce →
      ce.refCount = (k : Int) + 1 →
      (CloseAll D (List.replicate (k + 1) { Client := c0, pool := cp, uri := uri }) w).2.calls
          = w.calls ++ [.Disconnect ce.client] ∧
        ((CloseAll D (List.replicate (k + 1) { Client := c0, pool := cp, uri := uri })
            w).2.pools cp).clients uri = none := by
  induction k with
  | zero =>
    intro w ce hce hrc
    have hrc1 : ce.refCount = 1 := by omega
    rcases hd : D.Disconnect w.driver ce.client with ⟨r, d1⟩
    simp [CloseAll, Close, releaseClient, hce, hrc1, hd, setClients, mapDelete]
  | succ k ih =>
    intro w ce hce hrc
    have hne : ¬ (ce.refCount - 1 = 0) := by omega
    have h2 : (Close D { Client := c0, pool := cp, uri := uri } w).2.calls = w.calls := by
      simp [Close, releaseClient, hce, hne]
    have h4 : ((Close D { Client := c0, pool := cp, uri := uri } w).2.pools cp).clients uri
        = some { client := ce.client, refCount := ce.refCount - 1 } := by
      simp [Close, releaseClient, hce, hne, setClients, mapAssign]
    obtain ⟨i2, i4⟩ := ih (Close D { Client := c0, pool := cp, uri := uri } w).2 _ h4
      (by simp; omega)
    rw [List.replicate_succ, CloseAll_cons]
    refine ⟨?_, ?_⟩
    · simp [i2, h2]
    · simp only [i4]

theorem failures_cons_error (e : GoError) (rs : List (Except GoError pooledMongoClient)) :
    failures (.error e :: rs) = failures rs + 1 := by
  simp [failures, List.countP_cons, isFailure]

theorem handles_cons_error (e : GoError) (rs : List (Except GoError pooledMongoClient)) :
    handles (.error e :: rs) = handles rs := by
  simp [handles]

theorem countConnect_append_connect (cs : List DriverCall) (uri : String) :
    countConnect (cs ++ [.Connect uri]) = countConnect cs + 1 := by
  simp [countConnect, List.countP_append, isConnect]

theorem countConnect_append_connect_ping (cs : List DriverCall) (uri : String)
    (c : mongo.Client) :
    countConnect (cs ++ [.Connect uri, .Ping c]) = countConnect cs + 1 := by
  simp [countConnect, List.countP_append, List.countP_cons, isConnect]

/-- C1: when the key has no entry and Connect and Ping succeed, `N ≥ 1` calls
of GetClient for the key all succeed with one Connect and one Ping in total;
then, for the `N` returned handles closed in any order `hs`, closing any `k < N`
of them makes no driver call and leaves the entry with refCount `N - k`, and
closing all `N` adds exactly one driver call, a Disconnect on the shared
client, made by the last Close, after which the key has no entry. -/
theorem GetClientN_then_CloseAll {σ : Type} (D : Driver σ) (cp : Nat) (uri : String)
    (w : World σ) (N : Nat) (c : mongo.Client) (d1 d2 : σ) (hs : List pooledMongoClient)
    (hN : 1 ≤ N)
    (hno : (w.pools cp).clients uri = none)
    (hc : D.Connect w.driver uri = (.ok c, d1))
    (hp : D.Ping d1 c = (none, d2))
    (hperm : hs.Perm (handles (GetClientN D cp uri N w).1)) :
    (GetClientN D cp uri N w).1
        = List.replicate N (.ok { Client := c, pool := cp, uri := uri }) ∧
      (GetClientN D cp uri N w).2.calls = w.calls ++ [.Connect uri, .Ping c] ∧
      (∀ k, k < N →
        (CloseAll D (hs.take k) (GetClientN D cp uri N w).2).2.calls
            = (GetClientN D cp uri N w).2.calls ∧
          countDisconnect (CloseAll D (hs.take k) (GetClientN D cp uri N w).2).2.calls
            = countDisconnect w.calls ∧
          ((CloseAll D (hs.take k) (GetClientN D cp uri N w).2).2.pools cp).clients uri
            = some { client := c, refCount := (N : Int) - k }) ∧
      (CloseAll D hs (GetClientN D cp uri N w).2).2.calls
        = (GetClientN D cp uri N w).2.calls ++ [.Disconnect c] ∧
      countDisconnect (CloseAll D hs (GetClientN D cp uri N w).2).2.calls
        = countDisconnect w.calls + 1 ∧
      ((CloseAll D hs (GetClientN D cp uri N w).2).2.pools cp).clients uri = none := by
  obtain ⟨n, rfl⟩ : ∃ n, N = n + 1 := ⟨N - 1, by omega⟩
  have h1 : (GetClient D cp uri w).1 = .ok { Client := c, pool := cp, uri := uri } := by
    simp [GetClient, hno, hc, hp]
  have h2 : (GetClient D cp uri w).2.calls = w.calls ++ [.Connect uri, .Ping c] := by
    simp [GetClient, hno, hc, hp]
  have h4 : ((GetClient D cp uri w).2.pools cp).clients uri
      = some { client := c, refCount := 1 } := by
    simp [GetClient, hno, hc, hp, setClients, mapAssign]
  obtain ⟨i1, i2, _, i4⟩ := GetClientN_of_entry D cp uri n (GetClient D cp uri w).2 _ h4
  have hres : (GetClientN D cp uri (n + 1) w).1
      = List.replicate (n + 1) (.ok { Client := c, pool := cp, uri := uri }) := by
    rw [GetClientN_succ]
    simp [h1, i1, List.replicate_succ]
  have hcalls : (GetClientN D cp uri (n + 1) w).2.calls
      = w.calls ++ [.Connect uri, .Ping c] := by
    rw [GetClientN_succ]
    simp [i2, h2]
  have hentry : ((GetClientN D cp uri (n + 1) w).2.pools cp).clients uri
      = some { client := c, refCount := (n : Int) + 1 } := by
    rw [GetClientN_succ]
    simp only [i4]
    simp
    omega
  have hhs : hs = List.replicate (n + 1) { Client := c, pool := cp, uri := uri } := by
    rw [hres, handles_replicate_ok] at hperm
    exact List.perm_replicate.mp hperm
  have hcd : countDisconnect (w.calls ++ [.Connect uri, .Ping c]) = countDisconnect w.calls := by
    simp [countDisconnect, List.countP_append, List.countP_cons, isDisconnect]
  refine ⟨hres, hcalls, ?_, ?_, ?_, ?_⟩
  · intro k hk
    have htake : hs.take k = List.replicate k { Client := c, pool := cp, uri := uri } := by
      rw [hhs, List.take_replicate, Nat.min_eq_left (by omega)]
    obtain ⟨j2, j4⟩ := CloseAll_of_shared D cp uri c k (GetClientN D cp uri (n + 1) w).2 _
      hentry (by simp; omega)
    rw [htake]
    refine ⟨j2, ?_, ?_⟩
    · rw [j2, hcalls, hcd]
    · rw [j4]
      simp
  · rw [hhs]
    exact (CloseAll_of_last D cp uri c n (GetClientN D cp uri (n + 1) w).2 _ hentry rfl).1
  · rw [hhs, (CloseAll_of_last D cp uri c n (GetClientN D cp uri (n + 1) w).2 _ hentry rfl).1,
      hcalls]
    simp [countDisconnect, List.countP_append, List.countP_cons, isDisconnect]
  · rw [hhs]
    exact (CloseAll_of_last D cp uri c n (GetClientN D cp uri (n + 1) w).2 _ hentry rfl).2

/-- Witness of C1 (N = 2): on the start state with a healthy driver, two
GetClient calls for "db1" return two handles on the client at address 0 with
one Connect and one Ping; the first Close makes no driver call and leaves the
entry with refCount 1; the second Close adds one Disconnect on that client and
removes the entry. -/
theorem GetClientN_then_CloseAll_witness :
    (GetClientN healthyDriver 0 "db1" 2 startWorld).1
        = [.ok { Client := { addr := 0 }, pool := 0, uri := "db1" },
           .ok { Client := { addr := 0 }, pool := 0, uri := "db1" }] ∧
      (GetClientN healthyDriver 0 "db1" 2 startWorld).2.calls
        = [.Connect "db1", .Ping { addr := 0 }] ∧
      (CloseAll healthyDriver [{ Client := { addr := 0 }, pool := 0, uri := "db1" }]
          (GetClientN healthyDriver 0 "db1" 2 startWorld).2).2.calls
        = (GetClientN healthyDriver 0 "db1" 2 startWorld).2.calls ∧
      ((CloseAll healthyDriver [{ Client := { addr := 0 }, pool := 0, uri := "db1" }]
          (GetClientN healthyDriver 0 "db1" 2 startWorld).2).2.pools 0).clients "db1"
        = some { client := { addr := 0 }, refCount := 1 } ∧
      (CloseAll healthyDriver
          [{ Client := { addr := 0 }, pool := 0, uri := "db1" },
           { Client := { addr := 0 }, pool := 0, uri := "db1" }]
          (GetClientN healthyDriver 0 "db1" 2 startWorld).2).2.calls
        = (GetClientN healthyDriver 0 "db1" 2 startWorld).2.calls
            ++ [.Disconnect { addr := 0 }] ∧
      ((CloseAll healthyDriver
          [{ Client := { addr := 0 }, pool := 0, uri := "db1" },
           { Client := { addr := 0 }, pool := 0, uri := "db1" }]
          (GetClientN healthyDriver 0 "db1" 2 startWorld).2).2.pools 0).clients "db1"
        = none :=
  have H := GetClientN_then_CloseAll healthyDriver 0 "db1" startWorld 2 { addr := 0 } 1 1
    [{ Client := { addr := 0 }, pool := 0, uri := "db1" },
     { Client := { addr := 0 }, pool := 0, uri := "db1" }]
    (by decide) rfl rfl rfl (List.Perm.refl _)
  ⟨H.1, H.2.1, (H.2.2.1 1 (by decide)).1, (H.2.2.1 1 (by decide)).2.2, H.2.2.2.1,
    H.2.2.2.2.2⟩

/-- C2 as stated fails: with a driver whose Connect fails, two GetClient calls
for "db1" one after another, with no release in between, make two Connect
calls. -/
theorem GetClientN_connects_twice :
    (GetClientN (scriptedDriver (some (.driver "no reachable servers")) none none) 0 "db1" 2
        startWorld).2.calls = [.Connect "db1", .Connect "db1"] ∧
    ¬ countConnect (GetClientN (scriptedDriver (some (.driver "no reachable servers")) none none)
        0 "db1" 2 startWorld).2.calls ≤ 1 := by
  refine ⟨rfl, ?_⟩
  decide

/-- C2, amended: in a run of `n` GetClient calls for the same key with no
release in between, every failed call makes one Connect call and the calls that
succeed make at most one Connect call between them: the number of Connect calls
of the run is at least the number of failed calls and at most one more.  Every
handle returned by a successful call of the run holds the same client. -/
theorem GetClientN_connects {σ : Type} (D : Driver σ) (cp : Nat) (uri : String) (n : Nat) :
    ∀ w : World σ,
      countConnect w.calls + failures (GetClientN D cp uri n w).1
          ≤ countConnect (GetClientN D cp uri n w).2.calls ∧
        countConnect (GetClientN D cp uri n w).2.calls
          ≤ countConnect w.calls + failures (GetClientN D cp uri n w).1 + 1 ∧
        ∀ h1 ∈ handles (GetClientN D cp uri n w).1,
          ∀ h2 ∈ handles (GetClientN D cp uri n w).1, h1.Client = h2.Client := by
  induction n with
  | zero =>
    intro w
    simp [GetClientN, failures, handles]
  | succ n ih =>
    intro w
    cases hce : (w.pools cp).clients uri with
    | some ce =>
      obtain ⟨i1, i2, _, _⟩ := GetClientN_of_entry D cp uri (n + 1) w ce hce
      rw [i1, i2, failures_replicate_ok, handles_replicate_ok]
      refine ⟨by omega, by omega, ?_⟩
      intro h1 m1 h2 m2
      rw [List.eq_of_mem_replicate m1, List.eq_of_mem_replicate m2]
    | none =>
      rcases hc : D.Connect w.driver uri with ⟨r, d1⟩
      cases r with
      | error e =>
        have g1 : (GetClient D cp uri w).1 = .error e := by simp [GetClient, hce, hc]
        have g2 : (GetClient D cp uri w).2.calls = w.calls ++ [.Connect uri] := by
          simp [GetClient, hce, hc]
        obtain ⟨j1, j2, j3⟩ := ih (GetClient D cp uri w).2
        rw [g2, countConnect_append_connect] at j1 j2
        rw [GetClientN_succ, g1]
        dsimp only
        rw [failures_cons_error, handles_cons_error]
        exact ⟨by omega, by omega, j3⟩
      | ok c =>
        rcases hp : D.Ping d1 c with ⟨pr, d2⟩
        cases pr with
        | some e =>
          have g1 : (GetClient D cp uri w).1
              = .error (Errorf "failed to ping mongodb: " e) := by
            simp [GetClient, hce, hc, hp]
          have g2 : (GetClient D cp uri w).2.calls
              = w.calls ++ [.Connect uri, .Ping c] := by
            simp [GetClient, hce, hc, hp]
          obtain ⟨j1, j2, j3⟩ := ih (GetClient D cp uri w).2
          rw [g2, countConnect_append_connect_ping] at j1 j2
          rw [GetClientN_succ, g1]
          dsimp only
          rw [failures_cons_error, handles_cons_error]
          exact ⟨by omega, by omega, j3⟩
        | none =>
          have g1 : (GetClient D cp uri w).1
              = .ok { Client := c, pool := cp, uri := uri } := by
            simp [GetClient, hce, hc, hp]
          have g2 : (GetClient D cp uri w).2.calls
              = w.calls ++ [.Connect uri, .Ping c] := by
            simp [GetClient, hce, hc, hp]
          have g4 : ((GetClient D cp uri w).2.pools cp).clients uri
              = some { client := c, refCount := 1 } := by
            simp [GetClient, hce, hc, hp, setClients, mapAssign]
          obtain ⟨i1, i2, _, _⟩ :=
            GetClientN_of_entry D cp uri n (GetClient D cp uri w).2 _ g4
          have hres : (GetClientN D cp uri (n + 1) w).1
              = List.replicate (n + 1) (.ok { Client := c, pool := cp, uri := uri }) := by
            rw [GetClientN_succ]
            simp [g1, i1, List.replicate_succ]
          have hcalls : (GetClientN D cp uri (n + 1) w).2.calls
              = w.calls ++ [.Connect uri, .Ping c] := by
            rw [GetClientN_succ]
            simp [i2, g2]
          rw [hres, hcalls, failures_replicate_ok, handles_replicate_ok,
            countConnect_append_connect_ping]
          refine ⟨by omega, by omega, ?_⟩
          intro h1 m1 h2 m2
          rw [List.eq_of_mem_replicate m1, List.eq_of_mem_replicate m2]

/-- Witness of C2, amended: three GetClient calls for "db1" on the start state
with a healthy driver make no failed call and one Connect call, and all their
handles hold the same client. -/
theorem GetClientN_connects_witness :
    countConnect startWorld.calls + failures (GetClientN healthyDriver 0 "db1" 3 startWorld).1
        ≤ countConnect (GetClientN healthyDriver 0 "db1" 3 startWorld).2.calls ∧
      countConnect (GetClientN healthyDriver 0 "db1" 3 startWorld).2.calls
        ≤ countConnect startWorld.calls
            + failures (GetClientN healthyDriver 0 "db1" 3 startWorld).1 + 1 ∧
      ∀ h1 ∈ handles (GetClientN healthyDriver 0 "db1" 3 startWorld).1,
        ∀ h2 ∈ handles (GetClientN healthyDriver 0 "db1" 3 startWorld).1,
          h1.Client = h2.Client :=
  GetClientN_connects healthyDriver 0 "db1" 3 startWorld

/-! ## The shape of a single call -/

/-- GetClient does one of four things: reuse the entry of the key; fail in
Connect; fail in Ping; or register a new client. -/
theorem GetClient_cases {σ : Type} (D : Driver σ) (cp : Nat) (uri : String) (w : World σ) :
    (∃ ce, (w.pools cp).clients uri = some ce ∧
        GetClient D cp uri w
          = (.ok { Client := ce.client, pool := cp, uri := uri },
              { pools := setClients w.pools cp (mapAssign (w.pools cp).clients uri
                  { client := ce.client, refCount := ce.refCount + 1 }),
                driver := w.driver, calls := w.calls })) ∨
      ((w.pools cp).clients uri = none ∧ ∃ e d1,
        GetClient D cp uri w
          = (.error e, { pools := w.pools, driver := d1, calls := w.calls ++ [.Connect uri] })) ∨
      ((w.pools cp).clients uri = none ∧ ∃ c e d2,
        GetClient D cp uri w
          = (.error e,
              { pools := w.pools, driver := d2,
                calls := w.calls ++ [.Connect uri, .Ping c] })) ∨
      ((w.pools cp).clients uri = none ∧ ∃ c d2,
        GetClient D cp uri w
          = (.ok { Client := c, pool := cp, uri := uri },
              { pools := setClients w.pools cp (mapAssign (w.pools cp).clients uri
                  { client := c, refCount := 1 }),
                driver := d2, calls := w.calls ++ [.Connect uri, .Ping c] })) := by
  cases hce : (w.pools cp).clients uri with
  | some ce =>
    left
    exact ⟨ce, rfl, by simp [GetClient, hce]⟩
  | none =>
    right
    rcases hc : D.Connect w.driver uri with ⟨r, d1⟩
    cases r with
    | error e =>
      left
      exact ⟨rfl, e, d1, by simp [GetClient, hce, hc]⟩
    | ok c =>
      right
      rcases hp : D.Ping d1 c with ⟨pr, d2⟩
      cases pr with
      | some e =>
        left
        exact ⟨rfl, c, Errorf "failed to ping mongodb: " e, d2, by simp [GetClient, hce, hc, hp]⟩
      | none =>
        right
        exact ⟨rfl, c, d2, by simp [GetClient, hce, hc, hp]⟩

/-- The function releaseClient does one of three things: nothing, when the key has no
entry; lower the count, when it does not come to zero; or disconnect the
client and delete the entry, when the count was one. -/
theorem releaseClient_cases {σ : Type} (D : Driver σ) (cp : Nat) (uri : String)
    (w : World σ) :
    ((w.pools cp).clients uri = none ∧ releaseClient D cp uri w = (none, w)) ∨
      (∃ ce, (w.pools cp).clients uri = some ce ∧ ce.refCount ≠ 1 ∧
        releaseClient D cp uri w
          = (none,
              { pools := setClients w.pools cp (mapAssign (w.pools cp).clients uri
                  { client := ce.client, refCount := ce.refCount - 1 }),
                driver := w.driver, calls := w.calls })) ∨
      (∃ ce r d1, (w.pools cp).clients uri = some ce ∧ ce.refCount = 1 ∧
        releaseClient D cp uri w
          = (r,
              { pools := setClients w.pools cp (mapDelete (w.pools cp).clients uri),
                driver := d1, calls := w.calls ++ [.Disconnect ce.client] })) := by
  cases hce : (w.pools cp).clients uri with
  | none =>
    left
    exact ⟨rfl, by simp [releaseClient, hce]⟩
  | some ce =>
    right
    by_cases hrc : ce.refCount = 1
    · right
      rcases hd : D.Disconnect w.driver ce.client with ⟨r, d1⟩
      exact ⟨ce, r, d1, rfl, hrc, by simp [releaseClient, hce, hrc, hd]⟩
    · left
      have hne : ¬ (ce.refCount - 1 = 0) := by omega
      exact ⟨ce, rfl, hrc, by simp [releaseClient, hce, hne]⟩

theorem clients_setClients (pools : Nat → mongoClientPool) (cp : Nat)
    (f : String → Option mongoClientEntry) (key : String) :
    (setClients pools cp f cp).clients key = f key := by
  simp [setClients]

theorem pools_setClients_other (pools : Nat → mongoClientPool) (cp cq : Nat)
    (f : String → Option mongoClientEntry) (h : cq ≠ cp) :
    setClients pools cp f cq = pools cq := by
  simp [setClients, h]

theorem mapAssign_other (m : String → Option mongoClientEntry) (k x : String)
    (v : mongoClientEntry) (h : x ≠ k) : mapAssign m k v x = m x := by
  simp [mapAssign, h]

theorem mapDelete_other (m : String → Option mongoClientEntry) (k x : String) (h : x ≠ k) :
    mapDelete m k x = m x := by
  simp [mapDelete, h]

/-- GetClient for one key leaves the entry of any other key as it was. -/
theorem GetClient_other_key {σ : Type} (D : Driver σ) (cp : Nat) (keyA keyB : String)
    (w : World σ) (hne : keyA ≠ keyB) :
    ((GetClient D cp keyA w).2.pools cp).clients keyB = (w.pools cp).clients keyB := by
  rcases GetClient_cases D cp keyA w with ⟨ce, _, h⟩ | ⟨_, e, d1, h⟩ | ⟨_, c, e, d2, h⟩ |
    ⟨_, c, d2, h⟩ <;> rw [h]
  · simp [clients_setClients, mapAssign_other _ _ _ _ (Ne.symm hne)]
  · simp [clients_setClients, mapAssign_other _ _ _ _ (Ne.symm hne)]

/-- The function releaseClient for one key leaves the entry of any other key as it was. -/
theorem releaseClient_other_key {σ : Type} (D : Driver σ) (cp : Nat) (keyA keyB : String)
    (w : World σ) (hne : keyA ≠ keyB) :
    ((releaseClient D cp keyA w).2.pools cp).clients keyB = (w.pools cp).clients keyB := by
  rcases releaseClient_cases D cp keyA w with ⟨_, h⟩ | ⟨ce, _, _, h⟩ | ⟨ce, r, d1, _, _, h⟩ <;>
    rw [h]
  · simp [clients_setClients, mapAssign_other _ _ _ _ (Ne.symm hne)]
  · simp [clients_setClients, mapDelete_other _ _ _ (Ne.symm hne)]

/-- C11: for keys `keyA ≠ keyB` and every state and driver, a GetClient call
for `keyA` and a releaseClient call for `keyA`, whatever their outcome (success,
Connect failure, Ping failure, Disconnect failure), leave the entry of `keyB`
exactly as it was: present or absent as before, with the same client and the
same refCount. -/
theorem other_key_unchanged {σ : Type} (D : Driver σ) (cp : Nat) (keyA keyB : String)
    (w : World σ) (hne : keyA ≠ keyB) :
    ((GetClient D cp keyA w).2.pools cp).clients keyB = (w.pools cp).clients keyB ∧
    ((releaseClient D cp keyA w).2.pools cp).clients keyB = (w.pools cp).clients keyB :=
  ⟨GetClient_other_key D cp keyA keyB w hne, releaseClient_other_key D cp keyA keyB w hne⟩

/-- Witness of C11: with one reference on "db1", a GetClient for "db2" whose
Ping fails and a releaseClient for "db2" both leave the entry of "db1" as it was. -/
theorem other_key_unchanged_witness :
    ((GetClient (scriptedDriver none (some (.driver "server selection timeout")) none) 0 "db2"
        (sharedWorld 1)).2.pools 0).clients "db1" = ((sharedWorld 1).pools 0).clients "db1" ∧
    ((releaseClient (scriptedDriver none (some (.driver "server selection timeout")) none) 0
        "db2" (sharedWorld 1)).2.pools 0).clients "db1"
      = ((sharedWorld 1).pools 0).clients "db1" :=
  other_key_unchanged (scriptedDriver none (some (.driver "server selection timeout")) none) 0
    "db2" "db1" (sharedWorld 1) (by decide)

/-- A handle that GetClient returns holds the pool and the key of the call. -/
theorem GetClient_handle {σ : Type} (D : Driver σ) (cp : Nat) (uri : String) (w : World σ)
    (pc : pooledMongoClient) (h : (GetClient D cp uri w).1 = .ok pc) :
    pc.pool = cp ∧ pc.uri = uri := by
  rcases GetClient_cases D cp uri w with ⟨ce, _, g⟩ | ⟨_, e, d1, g⟩ | ⟨_, c, e, d2, g⟩ |
    ⟨_, c, d2, g⟩ <;> rw [g] at h <;> simp at h <;> subst h <;> exact ⟨rfl, rfl⟩

/-- C17: Close on a handle is releaseClient for the key stored in the handle,
on the pool stored in the handle.  So for two handles that GetClient issued for
the same key on the same pool (in whatever states, holding whatever clients)
and every state, Close on either one is the same call: same return value, same
driver calls, same resulting state. -/
theorem Close_same_for_key {σ : Type} (D : Driver σ) (cp : Nat) (uri : String)
    (w1 w2 w : World σ) (h1 h2 : pooledMongoClient)
    (g1 : (GetClient D cp uri w1).1 = .ok h1)
    (g2 : (GetClient D cp uri w2).1 = .ok h2) :
    Close D h1 w = releaseClient D h1.pool h1.uri w ∧
    Close D h1 w = releaseClient D cp uri w ∧
    Close D h2 w = releaseClient D cp uri w ∧
    Close D h1 w = Close D h2 w := by
  obtain ⟨p1, u1⟩ := GetClient_handle D cp uri w1 h1 g1
  obtain ⟨p2, u2⟩ := GetClient_handle D cp uri w2 h2 g2
  simp [Close, p1, u1, p2, u2]

/-- Witness of C17: the handle issued for "db1" on the start state (client at
address 0) and the one issued for "db1" when the driver has already handed out
five clients (client at address 5) close in the same way in a state with two
references on "db1". -/
theorem Close_same_for_key_witness :
    Close healthyDriver { Client := { addr := 0 }, pool := 0, uri := "db1" } (sharedWorld 2)
      = releaseClient healthyDriver
          (pooledMongoClient.mk { addr := 0 } 0 "db1").pool
          (pooledMongoClient.mk { addr := 0 } 0 "db1").uri (sharedWorld 2) ∧
    Close healthyDriver { Client := { addr := 0 }, pool := 0, uri := "db1" } (sharedWorld 2)
      = releaseClient healthyDriver 0 "db1" (sharedWorld 2) ∧
    Close healthyDriver { Client := { addr := 5 }, pool := 0, uri := "db1" } (sharedWorld 2)
      = releaseClient healthyDriver 0 "db1" (sharedWorld 2) ∧
    Close healthyDriver { Client := { addr := 0 }, pool := 0, uri := "db1" } (sharedWorld 2)
      = Close healthyDriver { Client := { addr := 5 }, pool := 0, uri := "db1" }
          (sharedWorld 2) :=
  Close_same_for_key healthyDriver 0 "db1" startWorld
    { pools := startWorld.pools, driver := 5, calls := [] } (sharedWorld 2)
    { Client := { addr := 0 }, pool := 0, uri := "db1" }
    { Client := { addr := 5 }, pool := 0, uri := "db1" } rfl rfl

/-! ## Misuse of handles -/

/-- C15: when the key has no entry and Connect and Ping succeed, the session
GetClient, GetClient, Close on the first handle, Close on the first handle
again issues two handles on the same client, counts two Close calls on the
first and none on the second, calls Disconnect on the shared client and leaves
no entry for the key: the entry is evicted while the second handle, still
holding that client, has never been closed. -/
theorem double_Close_evicts {σ : Type} (D : Driver σ) (cp : Nat) (uri : String)
    (w0 : World σ) (c : mongo.Client) (d1 d2 : σ)
    (hno : (w0.pools cp).clients uri = none)
    (hc : D.Connect w0.driver uri = (.ok c, d1))
    (hp : D.Ping d1 c = (none, d2)) :
    (run D cp [.GetClient uri, .GetClient uri, .Close 0, .Close 0] w0).issued
        = [({ Client := c, pool := cp, uri := uri }, 2),
           ({ Client := c, pool := cp, uri := uri }, 0)] ∧
      ((run D cp [.GetClient uri, .GetClient uri, .Close 0] w0).world.pools cp).clients uri
        = some { client := c, refCount := 1 } ∧
      (run D cp [.GetClient uri, .GetClient uri, .Close 0, .Close 0] w0).world.calls
        = w0.calls ++ [.Connect uri, .Ping c, .Disconnect c] ∧
      ((run D cp [.GetClient uri, .GetClient uri, .Close 0, .Close 0] w0).world.pools
          cp).clients uri = none := by
  rcases hd : D.Disconnect d2 c with ⟨r, d3⟩
  simp [run, step, markClosed, Close, GetClient, releaseClient, hno, hc, hp, hd,
    clients_setClients, mapAssign, mapDelete]

/-- Witness of C15: on the start state with a healthy driver and key "db1". -/
theorem double_Close_evicts_witness :
    (run healthyDriver 0 [.GetClient "db1", .GetClient "db1", .Close 0, .Close 0]
        startWorld).issued
        = [({ Client := { addr := 0 }, pool := 0, uri := "db1" }, 2),
           ({ Client := { addr := 0 }, pool := 0, uri := "db1" }, 0)] ∧
      ((run healthyDriver 0 [.GetClient "db1", .GetClient "db1", .Close 0]
          startWorld).world.pools 0).clients "db1"
        = some { client := { addr := 0 }, refCount := 1 } ∧
      (run healthyDriver 0 [.GetClient "db1", .GetClient "db1", .Close 0, .Close 0]
          startWorld).world.calls
        = startWorld.calls ++ [.Connect "db1", .Ping { addr := 0 }, .Disconnect { addr := 0 }] ∧
      ((run healthyDriver 0 [.GetClient "db1", .GetClient "db1", .Close 0, .Close 0]
          startWorld).world.pools 0).clients "db1" = none :=
  double_Close_evicts healthyDriver 0 "db1" startWorld { addr := 0 } 1 1 rfl rfl rfl

/-- C18: when the key has no entry, Connect and Ping succeed each time and the
second Connect returns a client different from the first, the session
GetClient (handle 0 on client `c1`), Close on handle 0, GetClient (handle 1 on
client `c2`), Close on handle 0 again ends with no entry for the key and with
Disconnect called on `c2`, the client of handle 1, although no Close was ever
called on handle 1. -/
theorem stale_Close_evicts {σ : Type} (D : Driver σ) (cp : Nat) (uri : String)
    (w0 : World σ) (c1 c2 : mongo.Client) (r1 : Option GoError) (d1 d2 d3 d4 d5 : σ)
    (hno : (w0.pools cp).clients uri = none)
    (hc1 : D.Connect w0.driver uri = (.ok c1, d1))
    (hp1 : D.Ping d1 c1 = (none, d2))
    (hd1 : D.Disconnect d2 c1 = (r1, d3))
    (hc2 : D.Connect d3 uri = (.ok c2, d4))
    (hp2 : D.Ping d4 c2 = (none, d5))
    (hfresh : c2 ≠ c1) :
    (run D cp [.GetClient uri, .Close 0, .GetClient uri, .Close 0] w0).issued
        = [({ Client := c1, pool := cp, uri := uri }, 2),
           ({ Client := c2, pool := cp, uri := uri }, 0)] ∧
      ((run D cp [.GetClient uri, .Close 0, .GetClient uri] w0).world.pools cp).clients uri
        = some { client := c2, refCount := 1 } ∧
      (run D cp [.GetClient uri, .Close 0, .GetClient uri, .Close 0] w0).world.calls
        = w0.calls ++ [.Connect uri, .Ping c1, .Disconnect c1, .Connect uri, .Ping c2,
            .Disconnect c2] ∧
      ((run D cp [.GetClient uri, .Close 0, .GetClient uri, .Close 0] w0).world.pools
          cp).clients uri = none ∧
      c2 ≠ c1 := by
  rcases hd2 : D.Disconnect d5 c2 with ⟨r2, d6⟩
  simp [run, step, markClosed, Close, GetClient, releaseClient, hno, hc1, hp1, hd1, hc2, hp2,
    hd2, hfresh, clients_setClients, mapAssign, mapDelete]

/-- Witness of C18: on the start state with a healthy driver and key "db1"; the
first client is at address 0 and the second at address 1. -/
theorem stale_Close_evicts_witness :
    (run healthyDriver 0 [.GetClient "db1", .Close 0, .GetClient "db1", .Close 0]
        startWorld).issued
        = [({ Client := { addr := 0 }, pool := 0, uri := "db1" }, 2),
           ({ Client := { addr := 1 }, pool := 0, uri := "db1" }, 0)] ∧
      ((run healthyDriver 0 [.GetClient "db1", .Close 0, .GetClient "db1"]
          startWorld).world.pools 0).clients "db1"
        = some { client := { addr := 1 }, refCount := 1 } ∧
      (run healthyDriver 0 [.GetClient "db1", .Close 0, .GetClient "db1", .Close 0]
          startWorld).world.calls
        = startWorld.calls ++ [.Connect "db1", .Ping { addr := 0 }, .Disconnect { addr := 0 },
            .Connect "db1", .Ping { addr := 1 }, .Disconnect { addr := 1 }] ∧
      ((run healthyDriver 0 [.GetClient "db1", .Close 0, .GetClient "db1", .Close 0]
          startWorld).world.pools 0).clients "db1" = none ∧
      (mongo.Client.mk 1) ≠ (mongo.Client.mk 0) :=
  stale_Close_evicts healthyDriver 0 "db1" startWorld { addr := 0 } { addr := 1 } none
    1 1 1 2 2 rfl rfl rfl rfl rfl rfl (by decide)

/-! ## Invariants of sessions -/

theorem connected_append (a b : List DriverCall) :
    connected (a ++ b) = connected a ++ connected b := by
  simp [connected, List.filterMap_append]

/-- The clients pinged by a GetClient call are the client its Connect call
returned, if it made one that succeeded, and no other. -/
theorem connected_GetClient {σ : Type} (D : Driver σ) (cp : Nat) (uri : String)
    (w : World σ) :
    connected (GetClient D cp uri w).2.calls
      = connected w.calls ++
          (match (w.pools cp).clients uri with
            | some _ => []
            | none =>
              match (D.Connect w.driver uri).1 with
              | .ok c => [c]
              | .error _ => []) := by
  cases hce : (w.pools cp).clients uri with
  | some ce => simp [GetClient, hce]
  | none =>
    rcases hc : D.Connect w.driver uri with ⟨r, d1⟩
    cases r with
    | error e => simp [GetClient, hce, hc, connected_append, connected]
    | ok c =>
      rcases hp : D.Ping d1 c with ⟨pr, d2⟩
      cases pr <;> simp [GetClient, hce, hc, hp, connected_append, connected]

/-- A call only adds to the log. -/
theorem GetClient_calls {σ : Type} (D : Driver σ) (cp : Nat) (uri : String) (w : World σ) :
    ∃ ext, (GetClient D cp uri w).2.calls = w.calls ++ ext ∧
      ∀ c, DriverCall.Disconnect c ∉ ext := by
  rcases GetClient_cases D cp uri w with ⟨ce, _, h⟩ | ⟨_, e, d1, h⟩ | ⟨_, c, e, d2, h⟩ |
    ⟨_, c, d2, h⟩ <;> rw [h]
  · exact ⟨[], by simp, by simp⟩
  · exact ⟨[.Connect uri], rfl, by simp⟩
  · exact ⟨[.Connect uri, .Ping c], rfl, by simp⟩
  · exact ⟨[.Connect uri, .Ping c], rfl, by simp⟩

/-- A releaseClient call adds nothing to the log, or one Disconnect on the
client that the entry of the key holds at the moment of the call. -/
theorem releaseClient_calls {σ : Type} (D : Driver σ) (cp : Nat) (uri : String)
    (w : World σ) :
    ∃ ext, (releaseClient D cp uri w).2.calls = w.calls ++ ext ∧
      ∀ c, DriverCall.Disconnect c ∈ ext →
        ∃ ce, (w.pools cp).clients uri = some ce ∧ ce.client = c := by
  rcases releaseClient_cases D cp uri w with ⟨_, h⟩ | ⟨ce, _, _, h⟩ | ⟨ce, r, d1, hce, _, h⟩ <;>
    rw [h]
  · exact ⟨[], by simp, by simp⟩
  · exact ⟨[], by simp, by simp⟩
  · refine ⟨[.Disconnect ce.client], rfl, ?_⟩
    intro c hc
    simp at hc
    exact ⟨ce, hce, hc.symm⟩

theorem WorldInv_GetClient {σ : Type} (D : Driver σ) (cp : Nat) (uri : String) (w : World σ)
    (h : WorldInv cp w) (hnd : (connected (GetClient D cp uri w).2.calls).Nodup) :
    WorldInv cp (GetClient D cp uri w).2 := by
  rcases GetClient_cases D cp uri w with ⟨ce, hce, g⟩ | ⟨_, e, d1, g⟩ | ⟨_, c, e, d2, g⟩ |
    ⟨hno, c, d2, g⟩ <;> rw [g] at hnd ⊢
  · -- the entry is reused
    have key : ∀ k x, (setClients w.pools cp (mapAssign (w.pools cp).clients uri
        { client := ce.client, refCount := ce.refCount + 1 }) cp).clients k = some x →
        ∃ y, (w.pools cp).clients k = some y ∧ y.client = x.client ∧ 1 ≤ x.refCount := by
      intro k x hx
      rw [clients_setClients] at hx
      by_cases hk : k = uri
      · subst hk
        rw [mapAssign_self] at hx
        cases hx
        exact ⟨ce, hce, rfl, by have := h.pos _ _ hce; simp; omega⟩
      · rw [mapAssign_other _ _ _ _ hk] at hx
        exact ⟨x, hx, rfl, h.pos _ _ hx⟩
    constructor
    · intro k x hx
      obtain ⟨y, _, _, hp⟩ := key k x hx
      exact hp
    · intro k x hx
      obtain ⟨y, hy, hc, _⟩ := key k x hx
      rw [← hc]
      exact h.conn _ _ hy
    · intro k x hx
      obtain ⟨y, hy, hc, _⟩ := key k x hx
      rw [← hc]
      exact h.live _ _ hy
    · intro u1 u2 x1 x2 h1 h2 he
      obtain ⟨y1, hy1, hc1, _⟩ := key u1 x1 h1
      obtain ⟨y2, hy2, hc2, _⟩ := key u2 x2 h2
      exact h.inj _ _ _ _ hy1 hy2 (by rw [hc1, hc2, he])
    · exact h.disc
    · exact h.once
  · -- Connect fails
    constructor
    · exact h.pos
    · intro k x hx
      simp only [connected_append]
      exact List.mem_append_left _ (h.conn _ _ hx)
    · intro k x hx
      simpa using h.live _ _ hx
    · exact h.inj
    · intro x hx
      simp only [connected_append]
      exact List.mem_append_left _ (h.disc _ (by simpa using hx))
    · intro x
      simpa [List.count_append] using h.once x
  · -- Ping fails
    constructor
    · exact h.pos
    · intro k x hx
      simp only [connected_append]
      exact List.mem_append_left _ (h.conn _ _ hx)
    · intro k x hx
      simpa using h.live _ _ hx
    · exact h.inj
    · intro x hx
      simp only [connected_append]
      exact List.mem_append_left _ (h.disc _ (by simpa using hx))
    · intro x
      simpa [List.count_append] using h.once x
  · -- a new client is registered
    have hc : c ∉ connected w.calls := by
      simp only [connected_append] at hnd
      have hd := (List.nodup_append.mp hnd).2.2
      intro hm
      exact hd hm (by simp [connected])
    have key : ∀ k x, (setClients w.pools cp (mapAssign (w.pools cp).clients uri
        { client := c, refCount := 1 }) cp).clients k = some x →
        (k = uri ∧ x = { client := c, refCount := 1 }) ∨
          (k ≠ uri ∧ (w.pools cp).clients k = some x) := by
      intro k x hx
      rw [clients_setClients] at hx
      by_cases hk : k = uri
      · subst hk
        rw [mapAssign_self] at hx
        cases hx
        exact Or.inl ⟨rfl, rfl⟩
      · rw [mapAssign_other _ _ _ _ hk] at hx
        exact Or.inr ⟨hk, hx⟩
    constructor
    · intro k x hx
      rcases key k x hx with ⟨_, rfl⟩ | ⟨_, hy⟩
      · simp
      · exact h.pos _ _ hy
    · intro k x hx
      simp only [connected_append]
      rcases key k x hx with ⟨_, rfl⟩ | ⟨_, hy⟩
      · simp [connected]
      · exact List.mem_append_left _ (h.conn _ _ hy)
    · intro k x hx
      rcases key k x hx with ⟨_, rfl⟩ | ⟨_, hy⟩
      · intro hm
        exact hc (h.disc _ (by simpa using hm))
      · simpa using h.live _ _ hy
    · intro u1 u2 x1 x2 h1 h2 he
      rcases key u1 x1 h1 with ⟨e1, rfl⟩ | ⟨n1, hy1⟩ <;>
        rcases key u2 x2 h2 with ⟨e2, rfl⟩ | ⟨n2, hy2⟩
      · rw [e1, e2]
      · have hm := h.conn _ _ hy2
        rw [← he] at hm
        exact absurd hm hc
      · have hm := h.conn _ _ hy1
        rw [he] at hm
        exact absurd hm hc
      · exact h.inj _ _ _ _ hy1 hy2 he
    · intro x hx
      simp only [connected_append]
      exact List.mem_append_left _ (h.disc _ (by simpa using hx))
    · intro x
      simpa [List.count_append] using h.once x

theorem connected_releaseClient {σ : Type} (D : Driver σ) (cp : Nat) (uri : String)
    (w : World σ) :
    connected (releaseClient D cp uri w).2.calls = connected w.calls := by
  rcases releaseClient_cases D cp uri w with ⟨_, h⟩ | ⟨ce, _, _, h⟩ | ⟨ce, r, d1, _, _, h⟩ <;>
    rw [h]
  simp [connected_append, connected]

/-- An entry present after releaseClient was present before, with the same
client. -/
theorem releaseClient_entry {σ : Type} (D : Driver σ) (cp : Nat) (uri : String)
    (w : World σ) (k : String) (x : mongoClientEntry)
    (hx : ((releaseClient D cp uri w).2.pools cp).clients k = some x) :
    ∃ y, (w.pools cp).clients k = some y ∧ y.client = x.client := by
  rcases releaseClient_cases D cp uri w with ⟨_, h⟩ | ⟨ce, hce, _, h⟩ | ⟨ce, r, d1, hce, _, h⟩ <;>
    rw [h] at hx
  · exact ⟨x, hx, rfl⟩
  · rw [clients_setClients] at hx
    by_cases hk : k = uri
    · subst hk
      rw [mapAssign_self] at hx
      cases hx
      exact ⟨ce, hce, rfl⟩
    · rw [mapAssign_other _ _ _ _ hk] at hx
      exact ⟨x, hx, rfl⟩
  · rw [clients_setClients] at hx
    by_cases hk : k = uri
    · subst hk
      rw [mapDelete_self] at hx
      cases hx
    · rw [mapDelete_other _ _ _ hk] at hx
      exact ⟨x, hx, rfl⟩

theorem WorldInv_releaseClient {σ : Type} (D : Driver σ) (cp : Nat) (uri : String)
    (w : World σ) (h : WorldInv cp w) : WorldInv cp (releaseClient D cp uri w).2 := by
  rcases releaseClient_cases D cp uri w with ⟨_, g⟩ | ⟨ce, hce, hrc, g⟩ |
    ⟨ce, r, d1, hce, hrc, g⟩ <;> rw [g]
  · exact h
  · -- the count is lowered
    have key : ∀ k x, (setClients w.pools cp (mapAssign (w.pools cp).clients uri
        { client := ce.client, refCount := ce.refCount - 1 }) cp).clients k = some x →
        ∃ y, (w.pools cp).clients k = some y ∧ y.client = x.client ∧ 1 ≤ x.refCount := by
      intro k x hx
      rw [clients_setClients] at hx
      by_cases hk : k = uri
      · subst hk
        rw [mapAssign_self] at hx
        cases hx
        exact ⟨ce, hce, rfl, by have := h.pos _ _ hce; simp; omega⟩
      · rw [mapAssign_other _ _ _ _ hk] at hx
        exact ⟨x, hx, rfl, h.pos _ _ hx⟩
    constructor
    · intro k x hx
      obtain ⟨y, _, _, hp⟩ := key k x hx
      exact hp
    · intro k x hx
      obtain ⟨y, hy, hc, _⟩ := key k x hx
      rw [← hc]
      exact h.conn _ _ hy
    · intro k x hx
      obtain ⟨y, hy, hc, _⟩ := key k x hx
      rw [← hc]
      exact h.live _ _ hy
    · intro u1 u2 x1 x2 h1 h2 he
      obtain ⟨y1, hy1, hc1, _⟩ := key u1 x1 h1
      obtain ⟨y2, hy2, hc2, _⟩ := key u2 x2 h2
      exact h.inj _ _ _ _ hy1 hy2 (by rw [hc1, hc2, he])
    · exact h.disc
    · exact h.once
  · -- the client is disconnected and the entry deleted
    have key : ∀ k x, (setClients w.pools cp (mapDelete (w.pools cp).clients uri) cp).clients k
        = some x → k ≠ uri ∧ (w.pools cp).clients k = some x := by
      intro k x hx
      rw [clients_setClients] at hx
      by_cases hk : k = uri
      · subst hk
        rw [mapDelete_self] at hx
        cases hx
      · rw [mapDelete_other _ _ _ hk] at hx
        exact ⟨hk, hx⟩
    constructor
    · intro k x hx
      exact h.pos _ _ (key k x hx).2
    · intro k x hx
      simp only [connected_append]
      exact List.mem_append_left _ (h.conn _ _ (key k x hx).2)
    · intro k x hx hm
      obtain ⟨hk, hy⟩ := key k x hx
      rcases List.mem_append.mp hm with hm | hm
      · exact h.live _ _ hy hm
      · simp at hm
        exact hk (h.inj _ _ _ _ hy hce hm)
    · intro u1 u2 x1 x2 h1 h2 he
      exact h.inj _ _ _ _ (key u1 x1 h1).2 (key u2 x2 h2).2 he
    · intro x hx
      simp only [connected_append]
      rcases List.mem_append.mp hx with hm | hm
      · exact List.mem_append_left _ (h.disc _ hm)
      · simp at hm
        subst hm
        exact List.mem_append_left _ (h.conn _ _ hce)
    · intro x
      rw [List.count_append]
      by_cases hx : x = ce.client
      · subst hx
        have h0 : List.count (DriverCall.Disconnect ce.client) w.calls = 0 :=
          List.count_eq_zero.mpr (h.live _ _ hce)
        simp [h0]
      · have h1 : List.count (DriverCall.Disconnect x) [DriverCall.Disconnect ce.client] = 0 := by
          apply List.count_eq_zero.mpr
          simp
          exact hx
        rw [h1]
        exact h.once x

/-- The invariant holds of a world whose pool `cp` is empty and whose log is
empty. -/
theorem WorldInv_start {σ : Type} (cp : Nat) (w0 : World σ)
    (hempty : ∀ uri, (w0.pools cp).clients uri = none) (hlog : w0.calls = []) :
    WorldInv cp w0 := by
  constructor
  · intro k x hx
    rw [hempty] at hx
    cases hx
  · intro k x hx
    rw [hempty] at hx
    cases hx
  · intro k x hx
    rw [hempty] at hx
    cases hx
  · intro u1 u2 x1 x2 h1
    rw [hempty] at h1
    cases h1
  · intro c hc
    rw [hlog] at hc
    cases hc
  · intro c
    rw [hlog]
    simp

theorem run_snoc {σ : Type} (D : Driver σ) (cp : Nat) (ops : List Op) (op : Op)
    (w0 : World σ) : run D cp (ops ++ [op]) w0 = step D cp (run D cp ops w0) op := by
  simp [run, List.foldl_append]

/-- Every handle of `markClosed l i` is a handle of `l`. -/
theorem markClosed_handle (l : List (pooledMongoClient × Nat)) :
    ∀ (i : Nat) (z : pooledMongoClient × Nat), z ∈ markClosed l i → ∃ y ∈ l, y.1 = z.1 := by
  induction l with
  | nil =>
    intro i z hz
    simp [markClosed] at hz
  | cons x rest ih =>
    intro i z hz
    cases i with
    | zero =>
      simp only [markClosed, List.mem_cons] at hz
      rcases hz with rfl | hz
      · exact ⟨x, List.mem_cons_self _ _, rfl⟩
      · exact ⟨z, List.mem_cons_of_mem _ hz, rfl⟩
    | succ i =>
      simp only [markClosed, List.mem_cons] at hz
      rcases hz with rfl | hz
      · exact ⟨z, List.mem_cons_self _ _, rfl⟩
      · obtain ⟨y, hy, e⟩ := ih i z hz
        exact ⟨y, List.mem_cons_of_mem _ hy, e⟩

/-- The world of a session step is the world of a GetClient or releaseClient
call on the pool, or is unchanged. -/
theorem step_world {σ : Type} (D : Driver σ) (cp : Nat) (s : Session σ)
    (hpool : ∀ x ∈ s.issued, x.1.pool = cp) (op : Op) :
    (∃ uri, (step D cp s op).world = (GetClient D cp uri s.world).2) ∨
      (∃ uri, (step D cp s op).world = (releaseClient D cp uri s.world).2) ∨
      (step D cp s op).world = s.world := by
  cases op with
  | GetClient uri =>
    left
    refine ⟨uri, ?_⟩
    simp only [step]
    rcases hg : GetClient D cp uri s.world with ⟨r, w⟩
    cases r <;> rfl
  | releaseClient uri =>
    right
    left
    exact ⟨uri, rfl⟩
  | Close i =>
    right
    simp only [step]
    cases hi : s.issued[i]? with
    | none => right; rfl
    | some x =>
      left
      refine ⟨x.1.uri, ?_⟩
      have hx : x ∈ s.issued := List.getElem?_mem hi
      simp [Close, hpool x hx]

/-- A session step only adds to the log. -/
theorem step_calls {σ : Type} (D : Driver σ) (cp : Nat) (s : Session σ)
    (hpool : ∀ x ∈ s.issued, x.1.pool = cp) (op : Op) :
    ∃ ext, (step D cp s op).world.calls = s.world.calls ++ ext := by
  rcases step_world D cp s hpool op with ⟨uri, h⟩ | ⟨uri, h⟩ | h <;> rw [h]
  · obtain ⟨ext, he, _⟩ := GetClient_calls D cp uri s.world
    exact ⟨ext, he⟩
  · obtain ⟨ext, he, _⟩ := releaseClient_calls D cp uri s.world
    exact ⟨ext, he⟩
  · exact ⟨[], by simp⟩

theorem WorldInv_step {σ : Type} (D : Driver σ) (cp : Nat) (s : Session σ)
    (hpool : ∀ x ∈ s.issued, x.1.pool = cp) (op : Op) (h : WorldInv cp s.world)
    (hnd : (connected (step D cp s op).world.calls).Nodup) :
    WorldInv cp (step D cp s op).world := by
  rcases step_world D cp s hpool op with ⟨uri, g⟩ | ⟨uri, g⟩ | g <;> rw [g] at hnd ⊢
  · exact WorldInv_GetClient D cp uri s.world h hnd
  · exact WorldInv_releaseClient D cp uri s.world h
  · exact h

/-- The handle invariant survives a step that leaves the handles as they are,
or counts a Close on one, and makes a releaseClient call or none. -/
theorem HandleInv_release {σ : Type} (D : Driver σ) (cp : Nat) (s t : Session σ)
    (h : HandleInv cp s)
    (hiss : ∀ z ∈ t.issued, ∃ y ∈ s.issued, y.1 = z.1)
    (hw : (∃ uri, t.world = (releaseClient D cp uri s.world).2) ∨ t.world = s.world) :
    HandleInv cp t := by
  have hconn : connected t.world.calls = connected s.world.calls := by
    rcases hw with ⟨uri, g⟩ | g <;> rw [g]
    exact connected_releaseClient D cp uri s.world
  have hent : ∀ k x, (t.world.pools cp).clients k = some x →
      ∃ y, (s.world.pools cp).clients k = some y ∧ y.client = x.client := by
    intro k x hx
    rcases hw with ⟨uri, g⟩ | g <;> rw [g] at hx
    · exact releaseClient_entry D cp uri s.world k x hx
    · exact ⟨x, hx, rfl⟩
  constructor
  · intro z hz
    obtain ⟨y, hy, e⟩ := hiss z hz
    rw [← e]
    exact h.pool y hy
  · intro z hz
    obtain ⟨y, hy, e⟩ := hiss z hz
    rw [← e, hconn]
    exact h.conn y hy
  · intro z1 hz1 z2 hz2 he
    obtain ⟨y1, hy1, e1⟩ := hiss z1 hz1
    obtain ⟨y2, hy2, e2⟩ := hiss z2 hz2
    rw [← e1, ← e2] at he ⊢
    exact h.same y1 hy1 y2 hy2 he
  · intro z hz k x hx he
    obtain ⟨y, hy, e⟩ := hiss z hz
    obtain ⟨x0, hx0, ex⟩ := hent k x hx
    rw [← e] at he ⊢
    exact h.reg y hy k x0 hx0 (by rw [ex, he])

theorem HandleInv_GetClient {σ : Type} (D : Driver σ) (cp : Nat) (uri : String)
    (s : Session σ) (hw : WorldInv cp s.world) (h : HandleInv cp s)
    (hnd : (connected (GetClient D cp uri s.world).2.calls).Nodup) :
    HandleInv cp (step D cp s (.GetClient uri)) := by
  rcases GetClient_cases D cp uri s.world with ⟨ce, hce, g⟩ | ⟨_, e, d1, g⟩ |
    ⟨_, c, e, d2, g⟩ | ⟨hno, c, d2, g⟩ <;> rw [g] at hnd <;> simp only [step, g]
  · -- the entry is reused
    have key : ∀ k x, (setClients s.world.pools cp (mapAssign (s.world.pools cp).clients uri
        { client := ce.client, refCount := ce.refCount + 1 }) cp).clients k = some x →
        ∃ y, (s.world.pools cp).clients k = some y ∧ y.client = x.client := by
      intro k x hx
      rw [clients_setClients] at hx
      by_cases hk : k = uri
      · subst hk
        rw [mapAssign_self] at hx
        cases hx
        exact ⟨ce, hce, rfl⟩
      · rw [mapAssign_other _ _ _ _ hk] at hx
        exact ⟨x, hx, rfl⟩
    constructor
    · intro z hz
      rcases List.mem_append.mp hz with hz | hz
      · exact h.pool z hz
      · simp at hz
        subst hz
        rfl
    · intro z hz
      rcases List.mem_append.mp hz with hz | hz
      · exact h.conn z hz
      · simp at hz
        subst hz
        exact hw.conn _ _ hce
    · intro z1 hz1 z2 hz2 he
      rcases List.mem_append.mp hz1 with hz1 | hz1 <;>
        rcases List.mem_append.mp hz2 with hz2 | hz2
      · exact h.same z1 hz1 z2 hz2 he
      · simp at hz2
        subst hz2
        exact h.reg z1 hz1 uri ce hce he.symm
      · simp at hz1
        subst hz1
        exact (h.reg z2 hz2 uri ce hce he).symm
      · simp at hz1 hz2
        subst hz1 hz2
        rfl
    · intro z hz k x hx he
      obtain ⟨y, hy, ey⟩ := key k x hx
      rcases List.mem_append.mp hz with hz | hz
      · exact h.reg z hz k y hy (by rw [ey, he])
      · simp at hz
        subst hz
        exact (hw.inj _ _ _ _ hy hce (by rw [ey, he])).symm
  · -- Connect fails
    constructor
    · exact h.pool
    · intro z hz
      simp only [connected_append]
      exact List.mem_append_left _ (h.conn z hz)
    · exact h.same
    · exact h.reg
  · -- Ping fails
    constructor
    · exact h.pool
    · intro z hz
      simp only [connected_append]
      exact List.mem_append_left _ (h.conn z hz)
    · exact h.same
    · exact h.reg
  · -- a new client is registered
    have hc : c ∉ connected s.world.calls := by
      simp only [connected_append] at hnd
      have hd := (List.nodup_append.mp hnd).2.2
      intro hm
      exact hd hm (by simp [connected])
    have key : ∀ k x, (setClients s.world.pools cp (mapAssign (s.world.pools cp).clients uri
        { client := c, refCount := 1 }) cp).clients k = some x →
        (k = uri ∧ x = { client := c, refCount := 1 }) ∨
          (k ≠ uri ∧ (s.world.pools cp).clients k = some x) := by
      intro k x hx
      rw [clients_setClients] at hx
      by_cases hk : k = uri
      · subst hk
        rw [mapAssign_self] at hx
        cases hx
        exact Or.inl ⟨rfl, rfl⟩
      · rw [mapAssign_other _ _ _ _ hk] at hx
        exact Or.inr ⟨hk, hx⟩
    constructor
    · intro z hz
      rcases List.mem_append.mp hz with hz | hz
      · exact h.pool z hz
      · simp at hz
        subst hz
        rfl
    · intro z hz
      simp only [connected_append]
      rcases List.mem_append.mp hz with hz | hz
      · exact List.mem_append_left _ (h.conn z hz)
      · simp at hz
        subst hz
        simp [connected]
    · intro z1 hz1 z2 hz2 he
      rcases List.mem_append.mp hz1 with hz1 | hz1 <;>
        rcases List.mem_append.mp hz2 with hz2 | hz2
      · exact h.same z1 hz1 z2 hz2 he
      · simp at hz2
        subst hz2
        have hm := h.conn z1 hz1
        rw [he] at hm
        exact absurd hm hc
      · simp at hz1
        subst hz1
        have hm := h.conn z2 hz2
        rw [← he] at hm
        exact absurd hm hc
      · simp at hz1 hz2
        subst hz1 hz2
        rfl
    · intro z hz k x hx he
      rcases List.mem_append.mp hz with hz | hz
      · rcases key k x hx with ⟨_, rfl⟩ | ⟨_, hy⟩
        · have hm := h.conn z hz
          rw [← he] at hm
          exact absurd hm hc
        · exact h.reg z hz k x hy he
      · simp at hz
        subst hz
        rcases key k x hx with ⟨hk, _⟩ | ⟨_, hy⟩
        · exact hk.symm
        · have hm := hw.conn _ _ hy
          rw [he] at hm
          exact absurd hm hc

theorem HandleInv_step {σ : Type} (D : Driver σ) (cp : Nat) (s : Session σ) (op : Op)
    (hw : WorldInv cp s.world) (h : HandleInv cp s)
    (hnd : (connected (step D cp s op).world.calls).Nodup) :
    HandleInv cp (step D cp s op) := by
  cases op with
  | GetClient uri =>
    apply HandleInv_GetClient D cp uri s hw h
    have hwld : (step D cp s (.GetClient uri)).world = (GetClient D cp uri s.world).2 := by
      simp only [step]
      rcases hg : GetClient D cp uri s.world with ⟨r, w⟩
      cases r <;> rfl
    rw [← hwld]
    exact hnd
  | releaseClient uri =>
    exact HandleInv_release D cp s _ h (fun z hz => ⟨z, hz, rfl⟩) (Or.inl ⟨uri, rfl⟩)
  | Close i =>
    cases hi : s.issued[i]? with
    | none =>
      have hs : step D cp s (.Close i) = s := by simp [step, hi]
      rw [hs]
      exact h
    | some x =>
      have hs : step D cp s (.Close i)
          = { world := (Close D x.1 s.world).2, issued := markClosed s.issued i } := by
        simp [step, hi]
      rw [hs]
      refine HandleInv_release D cp s _ h (markClosed_handle s.issued i) (Or.inl ⟨x.1.uri, ?_⟩)
      simp [Close, h.pool x (List.getElem?_mem hi)]

/-- Every state of a session that starts with pool `cp` empty and the log empty,
and in which the clients returned by Connect are pairwise distinct, satisfies
both invariants. -/
theorem run_invariants {σ : Type} (D : Driver σ) (cp : Nat) (w0 : World σ)
    (hempty : ∀ uri, (w0.pools cp).clients uri = none) (hlog : w0.calls = [])
    (ops : List Op) :
    (connected (run D cp ops w0).world.calls).Nodup →
      WorldInv cp (run D cp ops w0).world ∧ HandleInv cp (run D cp ops w0) := by
  induction ops using List.reverseRecOn with
  | nil =>
    intro _
    refine ⟨WorldInv_start cp w0 hempty hlog, ?_⟩
    constructor <;> simp [run]
  | append_singleton ops op ih =>
    intro hnd
    rw [run_snoc] at hnd ⊢
    have hprev : (connected (run D cp ops w0).world.calls).Nodup := by
      cases op with
      | GetClient uri =>
        have hwld : (step D cp (run D cp ops w0) (.GetClient uri)).world
            = (GetClient D cp uri (run D cp ops w0).world).2 := by
          simp only [step]
          rcases hg : GetClient D cp uri (run D cp ops w0).world with ⟨r, w⟩
          cases r <;> rfl
        rw [hwld] at hnd
        obtain ⟨ext, he, _⟩ := GetClient_calls D cp uri (run D cp ops w0).world
        rw [he, connected_append] at hnd
        exact (List.nodup_append.mp hnd).1
      | releaseClient uri =>
        have hwld : (step D cp (run D cp ops w0) (.releaseClient uri)).world
            = (releaseClient D cp uri (run D cp ops w0).world).2 := rfl
        rw [hwld, connected_releaseClient] at hnd
        exact hnd
      | Close i =>
        cases hi : (run D cp ops w0).issued[i]? with
        | none =>
          have hs : step D cp (run D cp ops w0) (.Close i) = run D cp ops w0 := by
            simp [step, hi]
          rw [hs] at hnd
          exact hnd
        | some x =>
          have hs : (step D cp (run D cp ops w0) (.Close i)).world
              = (releaseClient D x.1.pool x.1.uri (run D cp ops w0).world).2 := by
            simp [step, hi, Close]
          rw [hs, connected_releaseClient] at hnd
          exact hnd
    obtain ⟨iw, ih2⟩ := ih hprev
    exact ⟨WorldInv_step D cp _ ih2.pool op iw hnd, HandleInv_step D cp _ op iw ih2 hnd⟩

/-- Every handle of a session on pool `cp` was issued by pool `cp`. -/
theorem run_pool {σ : Type} (D : Driver σ) (cp : Nat) (w0 : World σ) (ops : List Op) :
    ∀ x ∈ (run D cp ops w0).issued, x.1.pool = cp := by
  induction ops using List.reverseRecOn with
  | nil => simp [run]
  | append_singleton ops op ih =>
    rw [run_snoc]
    cases op with
    | GetClient uri =>
      simp only [step]
      rcases hg : GetClient D cp uri (run D cp ops w0).world with ⟨r, w⟩
      cases r with
      | error e => exact ih
      | ok pc =>
        intro x hx
        rcases List.mem_append.mp hx with hx | hx
        · exact ih x hx
        · simp at hx
          subst hx
          exact (GetClient_handle D cp uri (run D cp ops w0).world pc (by rw [hg])).1
    | releaseClient uri => exact ih
    | Close i =>
      simp only [step]
      cases hi : (run D cp ops w0).issued[i]? with
      | none => exact ih
      | some y =>
        intro x hx
        obtain ⟨z, hz, e⟩ := markClosed_handle _ i x hx
        rw [← e]
        exact ih z hz

/-- A session step adds no Disconnect to the log but one on a client that an
entry of the pool holds at the moment of the call. -/
theorem step_disconnects {σ : Type} (D : Driver σ) (cp : Nat) (s : Session σ)
    (hpool : ∀ x ∈ s.issued, x.1.pool = cp) (op : Op) :
    ∃ ext, (step D cp s op).world.calls = s.world.calls ++ ext ∧
      ∀ c, DriverCall.Disconnect c ∈ ext →
        ∃ uri ce, (s.world.pools cp).clients uri = some ce ∧ ce.client = c := by
  rcases step_world D cp s hpool op with ⟨uri, h⟩ | ⟨uri, h⟩ | h <;> rw [h]
  · obtain ⟨ext, he, hn⟩ := GetClient_calls D cp uri s.world
    exact ⟨ext, he, fun c hc => absurd hc (hn c)⟩
  · obtain ⟨ext, he, hd⟩ := releaseClient_calls D cp uri s.world
    exact ⟨ext, he, fun c hc => ⟨uri, hd c hc⟩⟩
  · exact ⟨[], by simp, by simp⟩

/-- C12: in a session of GetClient, releaseClient and Close calls that starts
with the pool empty and the log empty, and in which the clients returned by the
successful Connect calls are pairwise distinct, the entries of two different
keys hold different clients, and two handles issued for different keys hold
different clients. -/
theorem registry_injective {σ : Type} (D : Driver σ) (cp : Nat) (w0 : World σ)
    (ops : List Op)
    (hempty : ∀ uri, (w0.pools cp).clients uri = none) (hlog : w0.calls = [])
    (hfresh : (connected (run D cp ops w0).world.calls).Nodup) :
    (∀ u1 u2 ce1 ce2, ((run D cp ops w0).world.pools cp).clients u1 = some ce1 →
        ((run D cp ops w0).world.pools cp).clients u2 = some ce2 →
        u1 ≠ u2 → ce1.client ≠ ce2.client) ∧
      (∀ x ∈ (run D cp ops w0).issued, ∀ y ∈ (run D cp ops w0).issued,
        x.1.uri ≠ y.1.uri → x.1.Client ≠ y.1.Client) := by
  obtain ⟨hw, hh⟩ := run_invariants D cp w0 hempty hlog ops hfresh
  refine ⟨?_, ?_⟩
  · intro u1 u2 ce1 ce2 h1 h2 hne he
    exact hne (hw.inj _ _ _ _ h1 h2 he)
  · intro x hx y hy hne he
    exact hne (hh.same x hx y hy he)

/-- Witness of C12: with a healthy driver, after GetClient "db1", GetClient
"db2", Close on handle 0, GetClient "db1" from the start state. -/
theorem registry_injective_witness :
    (∀ u1 u2 ce1 ce2,
        ((run healthyDriver 0 [.GetClient "db1", .GetClient "db2", .Close 0, .GetClient "db1"]
          startWorld).world.pools 0).clients u1 = some ce1 →
        ((run healthyDriver 0 [.GetClient "db1", .GetClient "db2", .Close 0, .GetClient "db1"]
          startWorld).world.pools 0).clients u2 = some ce2 →
        u1 ≠ u2 → ce1.client ≠ ce2.client) ∧
      (∀ x ∈ (run healthyDriver 0
            [.GetClient "db1", .GetClient "db2", .Close 0, .GetClient "db1"] startWorld).issued,
        ∀ y ∈ (run healthyDriver 0
            [.GetClient "db1", .GetClient "db2", .Close 0, .GetClient "db1"] startWorld).issued,
        x.1.uri ≠ y.1.uri → x.1.Client ≠ y.1.Client) :=
  registry_injective healthyDriver 0 startWorld
    [.GetClient "db1", .GetClient "db2", .Close 0, .GetClient "db1"]
    (fun _ => rfl) rfl (by decide)

/-- C14, evaluated on the code: from the start state, with a driver whose
Connect succeeds and whose Ping fails, after the single call GetClient "db1"
the client at address 0 has been returned by a successful Connect, no entry of
the pool holds it (the pool has no entry at all), and Disconnect has not been
invoked on it. -/
theorem opened_client_leaked :
    connected (run (scriptedDriver none (some (.driver "server selection timeout")) none) 0
        [.GetClient "db1"] startWorld).world.calls = [{ addr := 0 }] ∧
    (run (scriptedDriver none (some (.driver "server selection timeout")) none) 0
        [.GetClient "db1"] startWorld).world.calls
      = [.Connect "db1", .Ping { addr := 0 }] ∧
    (∀ uri, ((run (scriptedDriver none (some (.driver "server selection timeout")) none) 0
        [.GetClient "db1"] startWorld).world.pools 0).clients uri = none) ∧
    DriverCall.Disconnect { addr := 0 } ∉
      (run (scriptedDriver none (some (.driver "server selection timeout")) none) 0
        [.GetClient "db1"] startWorld).world.calls := by
  refine ⟨rfl, rfl, fun _ => rfl, by decide⟩

/-- C19: in a session of GetClient, releaseClient and Close calls (double
releases and releases of unknown keys included) that starts with the pool empty
and the log empty, and in which the clients returned by the successful Connect
calls are pairwise distinct, Disconnect is invoked at most once on any client;
and every Disconnect a call of the session adds to the log is on a client that
an entry of the pool holds in the state the call starts from. -/
theorem Disconnect_at_most_once {σ : Type} (D : Driver σ) (cp : Nat) (w0 : World σ)
    (ops : List Op)
    (hempty : ∀ uri, (w0.pools cp).clients uri = none) (hlog : w0.calls = [])
    (hfresh : (connected (run D cp ops w0).world.calls).Nodup) :
    (∀ c, (run D cp ops w0).world.calls.count (DriverCall.Disconnect c) ≤ 1) ∧
      (∀ pre op post, ops = pre ++ op :: post →
        ∃ ext, (run D cp (pre ++ [op]) w0).world.calls
            = (run D cp pre w0).world.calls ++ ext ∧
          ∀ c, DriverCall.Disconnect c ∈ ext →
            ∃ uri ce, ((run D cp pre w0).world.pools cp).clients uri = some ce ∧
              ce.client = c) := by
  refine ⟨(run_invariants D cp w0 hempty hlog ops hfresh).1.once, ?_⟩
  intro pre op post _
  rw [run_snoc]
  exact step_disconnects D cp (run D cp pre w0) (run_pool D cp w0 pre) op

/-- Witness of C19: with a healthy driver, GetClient "db1", Close on handle 0
twice, a release of the unknown key "db9", then GetClient "db1" and Close on
handle 1, from the start state. -/
theorem Disconnect_at_most_once_witness :
    (∀ c, (run healthyDriver 0
          [.GetClient "db1", .Close 0, .Close 0, .releaseClient "db9", .GetClient "db1",
            .Close 1] startWorld).world.calls.count (DriverCall.Disconnect c) ≤ 1) ∧
      (∀ pre op post,
        [Op.GetClient "db1", .Close 0, .Close 0, .releaseClient "db9", .GetClient "db1",
            .Close 1] = pre ++ op :: post →
        ∃ ext, (run healthyDriver 0 (pre ++ [op]) startWorld).world.calls
            = (run healthyDriver 0 pre startWorld).world.calls ++ ext ∧
          ∀ c, DriverCall.Disconnect c ∈ ext →
            ∃ uri ce, ((run healthyDriver 0 pre startWorld).world.pools 0).clients uri
                = some ce ∧ ce.client = c) :=
  Disconnect_at_most_once healthyDriver 0 startWorld
    [.GetClient "db1", .Close 0, .Close 0, .releaseClient "db9", .GetClient "db1", .Close 1]
    (fun _ => rfl) rfl (by decide)

/-! ## Counting handles -/

theorem openFor_append_single (key : String) (l : List (pooledMongoClient × Nat))
    (pc : pooledMongoClient) :
    openFor key (l ++ [(pc, 0)]) = openFor key l + (if pc.uri = key then 1 else 0) := by
  simp [openFor, List.countP_append, List.countP_cons]

theorem issuedFor_eq (key : String) (l : List (pooledMongoClient × Nat)) :
    issuedFor key l = openFor key l + closedFor key l := by
  induction l with
  | nil => rfl
  | cons x rest ih =>
    simp only [issuedFor, openFor, closedFor, List.countP_cons] at ih ⊢
    by_cases hk : x.1.uri = key
    · by_cases h0 : x.2 = 0
      · simp [hk, h0]
        omega
      · have h1 : 1 ≤ x.2 := by omega
        simp [hk, h0, h1]
        omega
    · simp [hk]
      omega

/-- Counting a first Close on handle `i` takes it out of the open handles of
its key. -/
theorem markClosed_open (key : String) (l : List (pooledMongoClient × Nat)) :
    ∀ (i : Nat) (x : pooledMongoClient × Nat), l[i]? = some x → x.2 = 0 →
      openFor key l = openFor key (markClosed l i) + (if x.1.uri = key then 1 else 0) := by
  induction l with
  | nil =>
    intro i x hx
    simp at hx
  | cons y rest ih =>
    intro i x hx h0
    cases i with
    | zero =>
      simp at hx
      subst hx
      simp only [markClosed, openFor, List.countP_cons]
      by_cases hk : y.1.uri = key <;> simp [hk, h0]
    | succ i =>
      simp at hx
      have := ih i x hx h0
      simp only [markClosed, openFor, List.countP_cons] at this ⊢
      omega

/-- If no handle has more than one Close after a Close on handle `i`, then none
had before, and handle `i` had none. -/
theorem markClosed_once (l : List (pooledMongoClient × Nat)) :
    ∀ (i : Nat), (∀ z ∈ markClosed l i, z.2 ≤ 1) →
      (∀ z ∈ l, z.2 ≤ 1) ∧ ∀ x, l[i]? = some x → x.2 = 0 := by
  induction l with
  | nil =>
    intro i _
    simp
  | cons y rest ih =>
    intro i h
    cases i with
    | zero =>
      simp only [markClosed, List.mem_cons, forall_eq_or_imp] at h
      obtain ⟨hy, hrest⟩ := h
      simp at hy
      refine ⟨?_, ?_⟩
      · intro z hz
        rcases List.mem_cons.mp hz with rfl | hz
        · omega
        · exact hrest z hz
      · intro x hx
        simp at hx
        subst hx
        exact hy
    | succ i =>
      simp only [markClosed, List.mem_cons, forall_eq_or_imp] at h
      obtain ⟨hy, hrest⟩ := h
      obtain ⟨i1, i2⟩ := ih i hrest
      refine ⟨?_, ?_⟩
      · intro z hz
        rcases List.mem_cons.mp hz with rfl | hz
        · exact hy
        · exact i1 z hz
      · intro x hx
        simp at hx
        exact i2 x hx

/-- In a session of GetClient and Close calls that starts with the pool empty
and closes no handle twice, a key has an entry exactly when it has open
handles, and the count of the entry is their number. -/
theorem run_counts {σ : Type} (D : Driver σ) (cp : Nat) (w0 : World σ)
    (hempty : ∀ uri, (w0.pools cp).clients uri = none) (ops : List Op) :
    (∀ op ∈ ops, isDirectRelease op = false) →
    (∀ x ∈ (run D cp ops w0).issued, x.2 ≤ 1) →
    ∀ key,
      (((run D cp ops w0).world.pools cp).clients key = none ∧
          openFor key (run D cp ops w0).issued = 0) ∨
        (∃ c, ((run D cp ops w0).world.pools cp).clients key
            = some { client := c, refCount := (openFor key (run D cp ops w0).issued : Nat) } ∧
          1 ≤ openFor key (run D cp ops w0).issued) := by
  induction ops using List.reverseRecOn with
  | nil =>
    intro _ _ key
    left
    exact ⟨hempty key, rfl⟩
  | append_singleton ops op ih =>
    intro hops honce key
    have hops1 : ∀ o ∈ ops, isDirectRelease o = false :=
      fun o ho => hops o (List.mem_append_left _ ho)
    have hop : isDirectRelease op = false := hops op (by simp)
    rw [run_snoc] at honce ⊢
    cases op with
    | releaseClient uri => simp [isDirectRelease] at hop
    | GetClient uri =>
      rcases GetClient_cases D cp uri (run D cp ops w0).world with ⟨ce, hce, g⟩ |
        ⟨_, e, d1, g⟩ | ⟨_, c, e, d2, g⟩ | ⟨hno, c, d2, g⟩ <;>
        simp only [step, g] at honce ⊢
      · -- the entry is reused
        have hprev := ih hops1 (fun x hx => honce x (List.mem_append_left _ hx))
        rw [openFor_append_single, clients_setClients]
        by_cases hk : key = uri
        · subst hk
          rcases hprev key with ⟨hn, _⟩ | ⟨c, hc, h1⟩
          · rw [hce] at hn
            cases hn
          · right
            rw [hce] at hc
            cases hc
            refine ⟨c, ?_, by simp⟩
            simp [mapAssign_self]
        · rw [mapAssign_other _ _ _ _ hk]
          have hk2 : ¬ uri = key := fun h => hk h.symm
          simpa [hk2] using hprev key
      · exact ih hops1 honce key
      · exact ih hops1 honce key
      · -- a new client is registered
        have hprev := ih hops1 (fun x hx => honce x (List.mem_append_left _ hx))
        rw [openFor_append_single, clients_setClients]
        by_cases hk : key = uri
        · subst hk
          rcases hprev key with ⟨_, h0⟩ | ⟨c1, hc, _⟩
          · right
            refine ⟨c, ?_, by simp⟩
            simp [mapAssign_self, h0]
          · rw [hno] at hc
            cases hc
        · rw [mapAssign_other _ _ _ _ hk]
          have hk2 : ¬ uri = key := fun h => hk h.symm
          simpa [hk2] using hprev key
    | Close i =>
      cases hi : (run D cp ops w0).issued[i]? with
      | none =>
        simp only [step, hi] at honce ⊢
        exact ih hops1 honce key
      | some x =>
        simp only [step, hi] at honce ⊢
        obtain ⟨honce1, hx0⟩ := markClosed_once _ i honce
        have hprev := ih hops1 honce1
        have hopen := markClosed_open key _ i x hi (hx0 x hi)
        have hpool : x.1.pool = cp := run_pool D cp w0 ops x (List.getElem?_mem hi)
        have hcl : Close D x.1 (run D cp ops w0).world
            = releaseClient D cp x.1.uri (run D cp ops w0).world := by
          simp [Close, hpool]
        rw [hcl]
        by_cases hk : key = x.1.uri
        · subst hk
          simp only [if_true] at hopen
          rcases hprev x.1.uri with ⟨_, h0⟩ | ⟨c, hc, h1⟩
          · omega
          · rcases releaseClient_cases D cp x.1.uri (run D cp ops w0).world with ⟨hn, _⟩ |
              ⟨ce, hce, hrc, g⟩ | ⟨ce, r, d1, hce, hrc, g⟩
            · rw [hc] at hn
              cases hn
            · right
              rw [hc] at hce
              cases hce
              simp only at hrc
              rw [g, clients_setClients, mapAssign_self]
              refine ⟨c, ?_, by omega⟩
              simp
              omega
            · left
              rw [hc] at hce
              cases hce
              simp only at hrc
              rw [g, clients_setClients, mapDelete_self]
              exact ⟨rfl, by omega⟩
        · have hk2 : ¬ x.1.uri = key := fun h => hk h.symm
          simp only [hk2, if_false, Nat.add_zero] at hopen
          rw [releaseClient_other_key D cp x.1.uri key _ hk2, ← hopen]
          exact hprev key

/-- C13: in a session of GetClient and Close calls that starts with the pool
empty and in which no handle is closed more than once, for every key: the pool
has at most one entry for the key; the key has an entry exactly when the number
of handles issued for it exceeds the number of those handles that have been
closed; and the refCount of that entry is the difference of the two numbers. -/
theorem refCount_counts_handles {σ : Type} (D : Driver σ) (cp : Nat) (w0 : World σ)
    (ops : List Op) (key : String)
    (hempty : ∀ uri, (w0.pools cp).clients uri = none)
    (hops : ∀ op ∈ ops, isDirectRelease op = false)
    (honce : ∀ x ∈ (run D cp ops w0).issued, x.2 ≤ 1) :
    (∀ ce1 ce2, ((run D cp ops w0).world.pools cp).clients key = some ce1 →
        ((run D cp ops w0).world.pools cp).clients key = some ce2 → ce1 = ce2) ∧
      (((run D cp ops w0).world.pools cp).clients key ≠ none ↔
        closedFor key (run D cp ops w0).issued < issuedFor key (run D cp ops w0).issued) ∧
      (∀ ce, ((run D cp ops w0).world.pools cp).clients key = some ce →
        ce.refCount = (issuedFor key (run D cp ops w0).issued : Int)
          - (closedFor key (run D cp ops w0).issued : Int)) := by
  have hsum := issuedFor_eq key (run D cp ops w0).issued
  refine ⟨?_, ?_, ?_⟩
  · intro ce1 ce2 h1 h2
    rw [h1] at h2
    cases h2
    rfl
  · rcases run_counts D cp w0 hempty ops hops honce key with ⟨hn, h0⟩ | ⟨c, hc, h1⟩
    · rw [hn]
      simp
      omega
    · rw [hc]
      simp
      omega
  · intro ce hce
    rcases run_counts D cp w0 hempty ops hops honce key with ⟨hn, h0⟩ | ⟨c, hc, h1⟩
    · rw [hn] at hce
      cases hce
    · rw [hc] at hce
      cases hce
      simp
      omega

/-- Witness of C13: with a healthy driver, after GetClient "db1" three times
and Close on handles 0 and 2, for the key "db1" (three handles issued, two
closed). -/
theorem refCount_counts_handles_witness :
    (∀ ce1 ce2,
        ((run healthyDriver 0
          [.GetClient "db1", .GetClient "db1", .Close 0, .GetClient "db1", .Close 2]
          startWorld).world.pools 0).clients "db1" = some ce1 →
        ((run healthyDriver 0
          [.GetClient "db1", .GetClient "db1", .Close 0, .GetClient "db1", .Close 2]
          startWorld).world.pools 0).clients "db1" = some ce2 → ce1 = ce2) ∧
      (((run healthyDriver 0
          [.GetClient "db1", .GetClient "db1", .Close 0, .GetClient "db1", .Close 2]
          startWorld).world.pools 0).clients "db1" ≠ none ↔
        closedFor "db1" (run healthyDriver 0
          [.GetClient "db1", .GetClient "db1", .Close 0, .GetClient "db1", .Close 2]
          startWorld).issued
          < issuedFor "db1" (run healthyDriver 0
            [.GetClient "db1", .GetClient "db1", .Close 0, .GetClient "db1", .Close 2]
            startWorld).issued) ∧
      (∀ ce, ((run healthyDriver 0
          [.GetClient "db1", .GetClient "db1", .Close 0, .GetClient "db1", .Close 2]
          startWorld).world.pools 0).clients "db1" = some ce →
        ce.refCount = (issuedFor "db1" (run healthyDriver 0
            [.GetClient "db1", .GetClient "db1", .Close 0, .GetClient "db1", .Close 2]
            startWorld).issued : Int)
          - (closedFor "db1" (run healthyDriver 0
            [.GetClient "db1", .GetClient "db1", .Close 0, .GetClient "db1", .Close 2]
            startWorld).issued : Int)) :=
  refCount_counts_handles healthyDriver 0 startWorld
    [.GetClient "db1", .GetClient "db1", .Close 0, .GetClient "db1", .Close 2] "db1"
    (fun _ => rfl) (by decide) (by decide)

end MongoPool
